import Mathlib

/-!
# A shallow embedding of `tracer.cpp`

The program is a Whitted-style ray tracer over C++ `double`s.  The embedding
keeps the control flow of every function of the source and models a `double`
by the type `Dbl K`: a finite value taken from an ordered field `K`, or one of the
three special values `+inf`, `-inf`, `NaN`, which combine as IEEE 754 prescribes.
Every definition is computable at `K = ℚ`.

The arithmetic of finite values is that of the field: the rounding of binary64,
overflow, underflow and the sign of zero are outside the model.  The theorems
stated here therefore rest on the comparator, the branches, the loops, the
recursion and the conversion to bytes rather than on the value of an arithmetic
result, and an arithmetic expression in a statement stands for the value that the
code computes at that place.  Where a theorem speaks of the selection among
computed values (`intersectSelect`, `toUChar` after `clamp`), it holds for all
values.  The concrete inputs at which definitions are evaluated have dyadic
coordinates, chosen so that binary64 computes the same values with no rounding.
Properties that hold of the field arithmetic and fail under rounding, underflow or
overflow, such as the unit length of a normalised vector, are not stated.

The library functions `sqrt`, `pow` and `tan` are parameters (`MathLib`):
a theorem assumes of them only what its statement says.
-/

namespace Tracer

/-! ## Doubles -/

/-- A C++ `double`: a finite value, `+inf`, `-inf` or `NaN`. -/
inductive Dbl (K : Type) where
  | fin (x : K)
  | pinf
  | ninf
  | nan
  deriving DecidableEq, Repr

namespace Dbl

variable {K : Type} [LinearOrderedField K]

/-- Unary minus. -/
def neg : Dbl K → Dbl K
  | fin x => fin (-x)
  | pinf => ninf
  | ninf => pinf
  | nan => nan

/-- Addition: `inf + -inf` is `NaN`, `NaN` is absorbing. -/
def add : Dbl K → Dbl K → Dbl K
  | fin x, fin y => fin (x + y)
  | nan, _ => nan
  | _, nan => nan
  | pinf, ninf => nan
  | ninf, pinf => nan
  | pinf, _ => pinf
  | ninf, _ => ninf
  | fin _, pinf => pinf
  | fin _, ninf => ninf

/-- Subtraction, `a - b = a + (-b)`. -/
def sub (a b : Dbl K) : Dbl K := add a (neg b)

/-- The infinity with the sign of `x * y` for `x` infinite positive (`pos = true`)
or infinite negative, and `y` finite: `inf * 0` is `NaN`. -/
def infTimes (pos : Bool) (y : K) : Dbl K :=
  if y = 0 then nan
  else if (0 < y) = pos then pinf else ninf

/-- Multiplication. -/
def mul : Dbl K → Dbl K → Dbl K
  | fin x, fin y => fin (x * y)
  | nan, _ => nan
  | _, nan => nan
  | pinf, pinf => pinf
  | ninf, ninf => pinf
  | pinf, ninf => ninf
  | ninf, pinf => ninf
  | pinf, fin y => infTimes true y
  | ninf, fin y => infTimes false y
  | fin x, pinf => infTimes true x
  | fin x, ninf => infTimes false x

/-- Division: `0 / 0` and `inf / inf` are `NaN`, `x / 0` is an infinity with the
sign of `x` (the zero divisor counts as `+0`), `x / inf` is `0`. -/
def div : Dbl K → Dbl K → Dbl K
  | fin x, fin y =>
      if y = 0 then
        if x = 0 then nan else if 0 < x then pinf else ninf
      else fin (x / y)
  | nan, _ => nan
  | _, nan => nan
  | fin _, pinf => fin 0
  | fin _, ninf => fin 0
  | pinf, fin y => if 0 ≤ y then pinf else ninf
  | ninf, fin y => if 0 ≤ y then ninf else pinf
  | pinf, pinf => nan
  | pinf, ninf => nan
  | ninf, pinf => nan
  | ninf, ninf => nan

/-- The comparison `a < b` of two doubles: false as soon as one is `NaN`. -/
def lt : Dbl K → Dbl K → Bool
  | fin x, fin y => decide (x < y)
  | nan, _ => false
  | _, nan => false
  | ninf, ninf => false
  | ninf, _ => true
  | _, ninf => false
  | pinf, _ => false
  | fin _, pinf => true

/-- The comparison `a == b` of two doubles: false as soon as one is `NaN`. -/
def eq : Dbl K → Dbl K → Bool
  | fin x, fin y => decide (x = y)
  | pinf, pinf => true
  | ninf, ninf => true
  | _, _ => false

/-- The comparison `a <= b` of two doubles: false as soon as one is `NaN`.  The
source does not use it; the statements about the program do. -/
def le : Dbl K → Dbl K → Bool
  | fin x, fin y => decide (x ≤ y)
  | nan, _ => false
  | _, nan => false
  | ninf, _ => true
  | _, pinf => true
  | _, _ => false

/-- The function `std::max(a, b)`, which is `(a < b) ? b : a`. -/
def max (a b : Dbl K) : Dbl K := if lt a b then b else a

instance : Neg (Dbl K) := ⟨neg⟩
instance : Add (Dbl K) := ⟨add⟩
instance : Sub (Dbl K) := ⟨sub⟩
instance : Mul (Dbl K) := ⟨mul⟩
instance : Div (Dbl K) := ⟨div⟩
instance : Inhabited (Dbl K) := ⟨fin 0⟩

end Dbl

open Dbl

variable {K : Type} [LinearOrderedField K]

/-- The constant `EPSILON`, `0.0009765625 = 2^-10`, as a field element. -/
def eps : K := 1 / 1024

/-- The macro `EPSILON`. -/
def EPSILON : Dbl K := fin eps

/-- The constant `INFINITY`. -/
def INFINITY : Dbl K := pinf

/-- The library functions the program calls; they are parameters of the model. -/
structure MathLib (K : Type) where
  sqrt : Dbl K → Dbl K
  pow : Dbl K → Dbl K → Dbl K
  tan : Dbl K → Dbl K

/-! ## Vectors -/

/-- The struct `Vec3`. -/
structure Vec3 (K : Type) where
  x : Dbl K
  y : Dbl K
  z : Dbl K
  deriving DecidableEq, Repr

namespace Vec3

/-- The default constructor `Vec3()`. -/
def zero : Vec3 K := ⟨fin 0, fin 0, fin 0⟩

instance : Inhabited (Vec3 K) := ⟨zero⟩

/-- The member `operator+`. -/
def add (u v : Vec3 K) : Vec3 K := ⟨u.x + v.x, u.y + v.y, u.z + v.z⟩

/-- The member `operator-`. -/
def sub (u v : Vec3 K) : Vec3 K := ⟨u.x - v.x, u.y - v.y, u.z - v.z⟩

/-- The member `operator*(double)`. -/
def scale (u : Vec3 K) (s : Dbl K) : Vec3 K := ⟨u.x * s, u.y * s, u.z * s⟩

/-- The member `operator/(double)`. -/
def divide (u : Vec3 K) (s : Dbl K) : Vec3 K := ⟨u.x / s, u.y / s, u.z / s⟩

/-- The member `dot`. -/
def dot (u v : Vec3 K) : Dbl K := u.x * v.x + u.y * v.y + u.z * v.z

/-- The member `cross`. -/
def cross (u v : Vec3 K) : Vec3 K :=
  ⟨u.y * v.z - u.z * v.y, u.z * v.x - u.x * v.z, u.x * v.y - u.y * v.x⟩

/-- The member `length`. -/
def length (m : MathLib K) (u : Vec3 K) : Dbl K :=
  m.sqrt (u.x * u.x + u.y * u.y + u.z * u.z)

/-- The member `normalize`. -/
def normalize (m : MathLib K) (u : Vec3 K) : Vec3 K :=
  let len := length m u
  if Dbl.eq len (fin 0) then ⟨fin 0, fin 0, fin 0⟩
  else divide u len

/-- The member `reflect`: `r = d - 2(d · n)n`. -/
def reflect (u normal : Vec3 K) : Vec3 K :=
  let dotProd := dot u normal
  sub u (scale normal (fin 2 * dotProd))

/-- Modelled from the spec: the product of two `Vec3` colours, which the source
uses (`pigment * amb * lights[0].col`) and does not declare; the spec multiplies
colours channel by channel. -/
def mulv (u v : Vec3 K) : Vec3 K := ⟨u.x * v.x, u.y * v.y, u.z * v.z⟩

/-- Modelled from the spec: the sum `Vec3 + double` of `diffuse + specular`, which
the source uses and does not declare; the scalar is added to every channel. -/
def adds (u : Vec3 K) (s : Dbl K) : Vec3 K := ⟨u.x + s, u.y + s, u.z + s⟩

/-- Modelled from the spec: the product `double * Vec3` of
`(1.0 - refl) * color`, which the source uses and does not declare; the scalar
scales every channel. -/
def smul (s : Dbl K) (u : Vec3 K) : Vec3 K := ⟨s * u.x, s * u.y, s * u.z⟩

end Vec3

/-- The struct `Ray`. -/
structure Ray (K : Type) where
  orig : Vec3 K
  dir : Vec3 K
  deriving DecidableEq, Repr

/-- The struct `Light`. -/
structure Light (K : Type) where
  pos : Vec3 K
  col : Vec3 K
  aten : Vec3 K
  deriving DecidableEq, Repr

/-- The struct `Texture`. -/
structure Texture (K : Type) where
  amb : Dbl K
  dif : Dbl K
  spec : Dbl K
  shin : Dbl K
  refl : Dbl K
  deriving DecidableEq, Repr

/-- The struct `Sphere`. -/
structure Sphere (K : Type) where
  pgm : Int
  tex : Int
  cent : Vec3 K
  rad : Dbl K
  deriving DecidableEq, Repr

instance : Inhabited (Light K) := ⟨⟨Vec3.zero, Vec3.zero, Vec3.zero⟩⟩
instance : Inhabited (Texture K) := ⟨⟨fin 0, fin 0, fin 0, fin 0, fin 0⟩⟩
instance : Inhabited (Sphere K) := ⟨⟨0, 0, Vec3.zero, fin 0⟩⟩

/-- The global arrays `lights`, `pigments`, `textures`, `spheres`; the counts
`lightCount`, ... are the lengths of the lists. -/
structure Scene (K : Type) where
  lights : List (Light K)
  pigments : List (Vec3 K)
  textures : List (Texture K)
  spheres : List (Sphere K)

/-- The read `xs[i]` of a global array at an `int` index.  A read outside the
array is undefined behaviour in the source; the model reads the default value. -/
def readAt {α : Type} [Inhabited α] (xs : List α) (i : Int) : α :=
  if 0 ≤ i then xs.getD i.toNat default else default

/-! ## The comparator and the intersection engine -/

/-- The function `compare`. -/
def compare (a b : Dbl K) : Int :=
  let d := a - b
  if Dbl.lt d (-EPSILON) then -1
  else if Dbl.lt EPSILON d then 1
  else 0

/-- The function `intersect`. -/
def intersect (m : MathLib K) (ray : Ray K) (sphere : Sphere K) : Dbl K :=
  let d := Vec3.sub ray.orig sphere.cent
  let a := Vec3.dot ray.dir ray.dir
  let b := fin 2 * Vec3.dot ray.dir d
  let c := Vec3.dot d d - sphere.rad * sphere.rad
  let dsc := b * b - fin 4 * a * c
  let state := compare dsc (fin 0)
  let result := INFINITY
  if state = 0 then
    let t := -b / (fin 2 * a)
    if compare (fin 0) t < 0 ∧ compare t INFINITY < 0 then t else result
  else if state = 1 then
    let s := m.sqrt dsc
    let t0 := (-b - s) / (fin 2 * a)
    let t1 := (-b + s) / (fin 2 * a)
    if compare (fin 0) t0 < 0 ∧ compare t0 INFINITY < 0 then t0
    else if compare (fin 0) t1 < 0 ∧ compare t1 result < 0 then t1
    else result
  else result

/-! ## Scene lookups -/

/-- The function `intensity`. -/
def intensity (sc : Scene K) (index : Int) (distance : Dbl K) : Vec3 K :=
  let col := (readAt sc.lights index).col
  let aten := (readAt sc.lights index).aten
  Vec3.divide col (aten.x + distance * aten.y + distance * distance * aten.z)

/-- The function `pigment`. -/
def pigment (sc : Scene K) (index : Int) : Vec3 K :=
  readAt sc.pigments (readAt sc.spheres index).pgm

/-- The function `texture`. -/
def texture (sc : Scene K) (index : Int) : Texture K :=
  readAt sc.textures (readAt sc.spheres index).tex

/-! ## The recursive tracer and the shading engine -/

/-- The loop of `traceRay` over the spheres not yet visited: `i` is the index of
the first of them, `index` and `t` are the loop's variables; the result is their
value when the loop ends. -/
def traceRayLoop (m : MathLib K) (ray : Ray K) :
    List (Sphere K) → Int → Int → Dbl K → Int × Dbl K
  | [], _, index, t => (index, t)
  | s :: rest, i, index, t =>
      let z := intersect m ray s
      if compare z t < 0 then traceRayLoop m ray rest (i + 1) i z
      else traceRayLoop m ray rest (i + 1) index t

/-- The inner loop of `traceLight` over the spheres not yet visited, for the
shadow ray `light` and the light's `distance`: the value of `tn` when the loop
ends. -/
def shadowLoop (m : MathLib K) (light : Ray K) (distance : Dbl K) :
    List (Sphere K) → Dbl K → Dbl K
  | [], tn => tn
  | s :: rest, tn =>
      let z := intersect m light s
      if compare z tn < 0 ∧ compare z distance < 0 then shadowLoop m light distance rest z
      else shadowLoop m light distance rest tn

/-- The hit point of `traceLight`: `ray.orig + ray.dir * (t - EPSILON)`. -/
def hitPoint (ray : Ray K) (t : Dbl K) : Vec3 K :=
  Vec3.add ray.orig (Vec3.scale ray.dir (t - EPSILON))

/-- The shading normal of `traceLight`: the unit vector from the centre to the
hit point, flipped when the ray starts inside the sphere. -/
def shadingNormal (m : MathLib K) (sc : Scene K) (ray : Ray K) (index : Int) (t : Dbl K) :
    Vec3 K :=
  let point := hitPoint ray t
  let normal := Vec3.normalize m (Vec3.sub point (readAt sc.spheres index).cent)
  if Dbl.lt (Vec3.length m (Vec3.sub ray.orig (readAt sc.spheres index).cent))
      (readAt sc.spheres index).rad then
    Vec3.scale normal (fin (-1))
  else normal

/-- The value of `tn` after the inner loop of `traceLight` for light `i`. -/
def shadowDistance (m : MathLib K) (sc : Scene K) (point : Vec3 K) (i : Int) : Dbl K :=
  let direction := Vec3.sub (readAt sc.lights i).pos point
  let distance := Vec3.length m direction
  let light : Ray K := ⟨point, Vec3.normalize m direction⟩
  shadowLoop m light distance sc.spheres INFINITY

/-- The term `intensity(i, distance) * (diffuse + specular)` of light `i`. -/
def lightTerm (m : MathLib K) (sc : Scene K) (ray : Ray K) (index : Int)
    (point normal : Vec3 K) (i : Int) : Vec3 K :=
  let direction := Vec3.sub (readAt sc.lights i).pos point
  let distance := Vec3.length m direction
  let light : Ray K := ⟨point, Vec3.normalize m direction⟩
  let diffuse := Vec3.scale (Vec3.scale (pigment sc index) (texture sc index).dif)
    (Dbl.max (Vec3.dot normal light.dir) (fin 0))
  let viewDir := Vec3.normalize m (Vec3.sub ray.orig point)
  let reflectDir := Vec3.reflect light.dir normal
  let specular := (texture sc index).spec *
    m.pow (Dbl.max (Vec3.dot viewDir reflectDir) (fin 0)) (texture sc index).shin
  Vec3.mulv (intensity sc i distance) (Vec3.adds diffuse specular)

/-- One iteration of the outer loop of `traceLight`, for light `i`: the new value
of `color`. -/
def lightStep (m : MathLib K) (sc : Scene K) (ray : Ray K) (index : Int)
    (point normal : Vec3 K) (color : Vec3 K) (i : Int) : Vec3 K :=
  let tn := shadowDistance m sc point i
  if compare tn INFINITY ≥ 0 then
    Vec3.add color (lightTerm m sc ray index point normal i)
  else color

/-- The value of `color` when the outer loop of `traceLight` ends (lines 248 to
278 of the source): the ambient seed, then one `lightStep` for every light
`i = 1, ..., lightCount - 1` in turn. -/
def localColor (m : MathLib K) (sc : Scene K) (ray : Ray K) (index : Int) (t : Dbl K) :
    Vec3 K :=
  let point := hitPoint ray t
  let normal := shadingNormal m sc ray index t
  let color := Vec3.mulv (Vec3.scale (pigment sc index) (texture sc index).amb)
    (readAt sc.lights 0).col
  (List.range' 1 (sc.lights.length - 1)).foldl
    (fun (c : Vec3 K) (i : Nat) => lightStep m sc ray index point normal c (i : Int)) color

/-- The reflected ray of `traceLight`: from the hit point, in the direction
`ray.dir.reflect(normal)`. -/
def reflectedRay (m : MathLib K) (sc : Scene K) (ray : Ray K) (index : Int) (t : Dbl K) :
    Ray K :=
  ⟨hitPoint ray t, Vec3.reflect ray.dir (shadingNormal m sc ray index t)⟩

/-- The background colour `Vec3(0.5, 0.5, 0.5)`. -/
def background : Vec3 K := ⟨fin (1 / 2), fin (1 / 2), fin (1 / 2)⟩

mutual

/-- The function `traceRay`. -/
def traceRay (m : MathLib K) (sc : Scene K) (ray : Ray K) (step : Int) : Vec3 K :=
  let r := traceRayLoop m ray sc.spheres 0 (-1) INFINITY
  if compare r.2 INFINITY ≥ 0 then background
  else traceLight m sc ray r.1 r.2 step
termination_by (step.toNat, 1)

/-- The function `traceLight`. -/
def traceLight (m : MathLib K) (sc : Scene K) (ray : Ray K) (index : Int) (t : Dbl K)
    (step : Int) : Vec3 K :=
  let color := localColor m sc ray index t
  if compare (fin 0) (texture sc index).refl ≥ 0 then color
  else if h : step ≤ 0 then Vec3.smul (fin 1 - (texture sc index).refl) color
  else
    Vec3.add (Vec3.smul (fin 1 - (texture sc index).refl) color)
      (Vec3.smul (texture sc index).refl
        (traceRay m sc (reflectedRay m sc ray index t) (step - 1)))
termination_by (step.toNat, 0)
decreasing_by
  simp_wf
  left
  omega

end

/-- The body of `traceLight` with the recursive call `traceRay(ray, step - 1)`
replaced by `trace`, which may fail. -/
def traceLightWith (m : MathLib K) (sc : Scene K)
    (trace : Ray K → Int → Option (Vec3 K))
    (ray : Ray K) (index : Int) (t : Dbl K) (step : Int) : Option (Vec3 K) :=
  let color := localColor m sc ray index t
  if compare (fin 0) (texture sc index).refl ≥ 0 then some color
  else if step ≤ 0 then some (Vec3.smul (fin 1 - (texture sc index).refl) color)
  else
    (trace (reflectedRay m sc ray index t) (step - 1)).map fun c =>
      Vec3.add (Vec3.smul (fin 1 - (texture sc index).refl) color)
        (Vec3.smul (texture sc index).refl c)

/-- The pair `traceRay` / `traceLight` run with a bound on the nesting of
`traceRay` invocations: every invocation of `traceRay` takes one unit of `fuel`,
and the result is `none` when an invocation finds none left. -/
def traceRayFuel (m : MathLib K) (sc : Scene K) : Nat → Ray K → Int → Option (Vec3 K)
  | 0, _, _ => none
  | fuel + 1, ray, step =>
      let r := traceRayLoop m ray sc.spheres 0 (-1) INFINITY
      if compare r.2 INFINITY ≥ 0 then some background
      else traceLightWith m sc (traceRayFuel m sc fuel) ray r.1 r.2 step

/-! ## Auxiliary definitions for the statements -/

/-- The body of `intersect` once the coefficients `a`, `b`, `c` of the quadratic
are known (`intersect_eq_intersectSolve`). -/
def intersectSolve (m : MathLib K) (a b c : Dbl K) : Dbl K :=
  let dsc := b * b - fin 4 * a * c
  let state := compare dsc (fin 0)
  let result := INFINITY
  if state = 0 then
    let t := -b / (fin 2 * a)
    if compare (fin 0) t < 0 ∧ compare t INFINITY < 0 then t else result
  else if state = 1 then
    let s := m.sqrt dsc
    let t0 := (-b - s) / (fin 2 * a)
    let t1 := (-b + s) / (fin 2 * a)
    if compare (fin 0) t0 < 0 ∧ compare t0 INFINITY < 0 then t0
    else if compare (fin 0) t1 < 0 ∧ compare t1 result < 0 then t1
    else result
  else result

/-- The conversion of an `int` to a `double`. -/
def Dbl.ofInt (n : Int) : Dbl K := fin (n : K)

/-- The globals that `initialize` sets for the camera and that `render` reads;
`lookAt` is the global `at`. -/
structure Camera (K : Type) where
  width : Int
  height : Int
  depth : Int
  aspect : Dbl K
  fovy : Dbl K
  w : Dbl K
  h : Dbl K
  eye : Vec3 K
  lookAt : Vec3 K
  up : Vec3 K
  fwd : Vec3 K
  left : Vec3 K

/-- The camera part of `initialize` (lines 109 and 117 to 123 of the source): the
values read from the scene description are the arguments, `lookAt` standing for
`at`; the result is the globals after the derivation.  The name `initialize` is
reserved in Lean. -/
def initCamera (m : MathLib K) (width height depth : Int) (eye lookAt up : Vec3 K)
    (fovy : Dbl K) : Camera K :=
  let aspect := Dbl.ofInt width / Dbl.ofInt height
  let up1 := Vec3.normalize m up
  let fwd := Vec3.normalize m (Vec3.sub lookAt eye)
  let left := Vec3.normalize m (Vec3.cross up1 fwd)
  let up2 := Vec3.normalize m (Vec3.cross fwd left)
  let at2 := Vec3.add eye fwd
  let h := fin 2 * m.tan (fovy / fin 2)
  let w := aspect * h
  { width := width, height := height, depth := depth, aspect := aspect, fovy := fovy,
    w := w, h := h, eye := eye, lookAt := at2, up := up2, fwd := fwd, left := left }

/-- The ray that the body of the loop of `render` builds for pixel `i`: `%` and `/`
on `int` truncate toward zero. -/
def pixelRay (m : MathLib K) (cam : Camera K) (i : Int) : Ray K :=
  let x := cam.w * Dbl.ofInt (Int.tmod i cam.width) / Dbl.ofInt cam.width - cam.w / fin 2
  let y := cam.h * Dbl.ofInt (Int.tdiv i cam.width) / Dbl.ofInt cam.height - cam.h / fin 2
  let origin := Vec3.sub (Vec3.sub cam.lookAt (Vec3.scale cam.left x)) (Vec3.scale cam.up y)
  let direction := Vec3.normalize m (Vec3.sub origin cam.eye)
  ⟨origin, direction⟩

/-- The function `render`: the array `pixels` it fills, for `i = 0, ...,
width * height - 1`. -/
def render (m : MathLib K) (sc : Scene K) (cam : Camera K) : List (Vec3 K) :=
  (List.range (cam.width * cam.height).toNat).map
    (fun (i : Nat) => traceRay m sc (pixelRay m cam (i : Int)) cam.depth)

/-- The function `clamp`. -/
def clamp (x lower upper : Dbl K) : Dbl K :=
  if Dbl.lt x lower then lower else if Dbl.lt upper x then upper else x

/-- The conversion `(unsigned char)` of a `double`: the value truncated toward
zero.  When the truncated value is outside `0 .. 255`, or the double is infinite or
`NaN`, the conversion is undefined behaviour in the source; the model gives `0`. -/
def toUChar [FloorRing K] : Dbl K → Nat
  | fin x =>
      let t : Int := if 0 ≤ x then ⌊x⌋ else ⌈x⌉
      if 0 ≤ t ∧ t ≤ 255 then t.toNat else 0
  | _ => 0

/-- The byte that `finalize` writes for the channel value `c`:
`(unsigned char) clamp(c * 255.0, 0.0, 255.0)`. -/
def channelByte [FloorRing K] (c : Dbl K) : Nat :=
  toUChar (clamp (c * fin 255) (fin 0) (fin 255))

/-- The function `finalize`: the array `data` it fills from `pixels`, three bytes
for every pixel. -/
def finalize [FloorRing K] (pixels : List (Vec3 K)) : List Nat :=
  pixels.flatMap (fun p => [channelByte p.x, channelByte p.y, channelByte p.z])

/-- The byte of the spec for the channel value `c`: `round(clamp(c * 255, 0, 255))`,
the clamped value rounded to the nearest integer. -/
def roundedByte [FloorRing K] (c : K) : Int :=
  round (max 0 (min (c * 255) 255))

/-- A tangent on the rational doubles that is known at `0` only: `tanQ 0 = 0`, and
`NaN` elsewhere. -/
def tanQ : Dbl ℚ → Dbl ℚ
  | fin x => if x = 0 then fin 0 else nan
  | _ => nan

/-- A square root on the rational doubles that is exact on the squares of
rationals (it rounds numerator and denominator down elsewhere); `sqrt(+inf)` is
`+inf`, the square root of a negative value is `NaN`. -/
def sqrtQ : Dbl ℚ → Dbl ℚ
  | fin x => if x < 0 then nan else fin ((Nat.sqrt x.num.toNat : ℚ) / (Nat.sqrt x.den : ℚ))
  | pinf => pinf
  | ninf => nan
  | nan => nan

/-- A power function on the rational doubles for natural exponents:
`powQ x n = x^n` when `x` is finite and `n` a natural number, `NaN` otherwise. -/
def powQ : Dbl ℚ → Dbl ℚ → Dbl ℚ
  | fin x, fin n => if 0 ≤ n ∧ n.den = 1 then fin (x ^ n.num.toNat) else nan
  | _, _ => nan

/-- A library over the rationals, for evaluating the model on concrete scenes. -/
def mathQ : MathLib ℚ := ⟨sqrtQ, powQ, tanQ⟩

/-- A vector with the three given rational coordinates. -/
def vecQ (x y z : ℚ) : Vec3 ℚ := ⟨fin x, fin y, fin z⟩

/-- The ray from the origin along the first axis. -/
def rayX : Ray ℚ := ⟨vecQ 0 0 0, vecQ 1 0 0⟩

/-- The sphere of centre `(3, 0, 0)` and radius `1`. -/
def sphereAhead : Sphere ℚ := ⟨0, 0, vecQ 3 0 0, fin 1⟩

/-- A distance as `intersect` returns it: finite or the sentinel. -/
def IsDist (d : Dbl K) : Prop := d = pinf ∨ ∃ q, d = fin q

/-- The sphere of centre `(3 - 2^-11, 0, 0)` and radius `1`: `rayX` meets it at
`t = 2 - 2^-11`. -/
def sphereCloser : Sphere ℚ := ⟨0, 0, vecQ (3 - 1 / 2048) 0 0, fin 1⟩

/-- The scene of the two spheres `sphereAhead` and `sphereCloser`, in this order,
with no light. -/
def sceneTwo : Scene ℚ := ⟨[], [], [], [sphereAhead, sphereCloser]⟩

/-- The scene of the one sphere `sphereAhead`, white, with ambient, diffuse and
specular coefficients `1`, shininess `1` and the given reflectivity, lit by a
white ambient light only. -/
def sceneOf (refl : ℚ) : Scene ℚ :=
  ⟨[⟨vecQ 0 0 0, vecQ 1 1 1, vecQ 1 0 0⟩], [vecQ 1 1 1],
    [⟨fin 1, fin 1, fin 1, fin 1, fin refl⟩], [sphereAhead]⟩

/-- The shadow ray of `traceLight` from `point` toward light `i`. -/
def shadowRay (m : MathLib K) (sc : Scene K) (point : Vec3 K) (i : Int) : Ray K :=
  ⟨point, Vec3.normalize m (Vec3.sub (readAt sc.lights i).pos point)⟩

/-- The distance from `point` to light `i`, as `traceLight` computes it. -/
def lightDistance (m : MathLib K) (sc : Scene K) (point : Vec3 K) (i : Int) : Dbl K :=
  Vec3.length m (Vec3.sub (readAt sc.lights i).pos point)

/-- Light `i` is occluded at `point`: some sphere has a finite `intersect`
distance `z` along the shadow ray that the comparator reports strictly closer than
the light, `compare(z, distance) < 0`. -/
def Occluded (m : MathLib K) (sc : Scene K) (point : Vec3 K) (i : Int) : Prop :=
  ∃ s ∈ sc.spheres, ∃ z, intersect m (shadowRay m sc point i) s = fin z ∧
    compare (fin z) (lightDistance m sc point i) < 0

/-- The scene with the light at position `j` replaced by `L`. -/
def Scene.setLight (sc : Scene K) (j : Nat) (L : Light K) : Scene K :=
  { sc with lights := sc.lights.set j L }

/-- The scene of the one sphere `sphereAhead`, matte and grey, lit by a white
ambient light only: its local colour is the background colour. -/
def sceneGrey : Scene ℚ :=
  ⟨[⟨vecQ 0 0 0, vecQ 1 1 1, vecQ 1 0 0⟩], [vecQ (1 / 2) (1 / 2) (1 / 2)],
    [⟨fin 1, fin 1, fin 1, fin 1, fin 0⟩], [sphereAhead]⟩

/-- The camera derived from a one-pixel image, the eye at the origin, the look-at
point `(0, 0, 2)`, the up vector `(0, 3, 0)` and the field of view `0`. -/
def camQ : Camera ℚ :=
  initCamera mathQ 1 1 0 (vecQ 0 0 0) (vecQ 0 0 2) (vecQ 0 3 0) (fin 0)

/-- The sphere of centre `(0, 0, 3/2)` and radius `1/4`. -/
def sphereView : Sphere ℚ := ⟨0, 0, vecQ 0 0 (3 / 2), fin (1 / 4)⟩

/-- The scene of the one sphere `sphereView`, white and matte, lit by a white
ambient light only. -/
def sceneView : Scene ℚ :=
  ⟨[⟨vecQ 0 0 0, vecQ 1 1 1, vecQ 1 0 0⟩], [vecQ 1 1 1],
    [⟨fin 1, fin 1, fin 1, fin 1, fin 0⟩], [sphereView]⟩

namespace Dbl

theorem add_def (a b : Dbl K) : a + b = Dbl.add a b := rfl
theorem sub_def (a b : Dbl K) : a - b = Dbl.add a (Dbl.neg b) := rfl
theorem mul_def (a b : Dbl K) : a * b = Dbl.mul a b := rfl
theorem div_def (a b : Dbl K) : a / b = Dbl.div a b := rfl
theorem neg_def (a : Dbl K) : -a = Dbl.neg a := rfl

@[simp] theorem fin_add_fin (x y : K) : (fin x + fin y : Dbl K) = fin (x + y) := rfl

@[simp] theorem neg_fin (x : K) : (-(fin x) : Dbl K) = fin (-x) := rfl

@[simp] theorem fin_sub_fin (x y : K) : (fin x - fin y : Dbl K) = fin (x - y) := by
  rw [sub_def]; simp [Dbl.add, Dbl.neg, sub_eq_add_neg]

@[simp] theorem fin_mul_fin (x y : K) : (fin x * fin y : Dbl K) = fin (x * y) := rfl

theorem fin_div_fin (x y : K) (h : y ≠ 0) : (fin x / fin y : Dbl K) = fin (x / y) := by
  rw [div_def]; simp [Dbl.div, h]

@[simp] theorem lt_fin_fin (x y : K) : Dbl.lt (fin x) (fin y) = decide (x < y) := rfl

theorem add_zero_right (a : Dbl K) : a + fin 0 = a := by
  cases a <;> simp [add_def, Dbl.add]

end Dbl

theorem eps_pos : (0 : K) < eps := by unfold eps; positivity

/-- The comparator on two finite values. -/
theorem compare_fin_fin (x y : K) :
    compare (fin x) (fin y) = if x - y < -eps then -1 else if eps < x - y then 1 else 0 := by
  simp [compare, EPSILON]

theorem compare_lt_zero_iff (a b : Dbl K) :
    compare a b < 0 ↔ Dbl.lt (a - b) (-EPSILON) = true := by
  unfold compare
  by_cases h : Dbl.lt (a - b) (-EPSILON) = true
  · simp [h]
  · simp only [h]
    by_cases h2 : Dbl.lt EPSILON (a - b) = true <;> simp [h2]

theorem compare_fin_fin_lt (x y : K) : compare (fin x) (fin y) < 0 ↔ x + eps < y := by
  rw [compare_lt_zero_iff]
  simp [EPSILON]
  constructor <;> intro h <;> linarith

theorem compare_pinf_not_lt (b : Dbl K) : ¬ compare pinf b < 0 := by
  rw [compare_lt_zero_iff]
  cases b <;> simp [sub_def, Dbl.add, Dbl.neg, Dbl.lt, EPSILON]

theorem compare_nan_not_lt (b : Dbl K) : ¬ compare nan b < 0 := by
  rw [compare_lt_zero_iff]
  cases b <;> simp [sub_def, Dbl.add, Dbl.neg, Dbl.lt, EPSILON]

theorem compare_fin_pinf (x : K) : compare (fin x) pinf < 0 := by
  rw [compare_lt_zero_iff]
  simp [sub_def, Dbl.add, Dbl.neg, Dbl.lt, EPSILON]

theorem compare_INFINITY_ge (a : Dbl K) :
    compare a INFINITY ≥ 0 ↔ a = pinf ∨ a = nan := by
  rw [ge_iff_le, ← not_lt, compare_lt_zero_iff]
  cases a <;> simp [sub_def, Dbl.add, Dbl.neg, Dbl.lt, EPSILON, INFINITY]

/-- The acceptance test of `intersect` holds of the finite values above `EPSILON`
only. -/
theorem accept_iff (t r : Dbl K) (hr : r = pinf) :
    (compare (fin 0) t < 0 ∧ compare t r < 0) ↔ ∃ q, t = fin q ∧ eps < q := by
  subst hr
  cases t with
  | fin q => simp [compare_fin_fin_lt, compare_fin_pinf]
  | pinf => simp [compare_pinf_not_lt]
  | ninf => simp [compare_lt_zero_iff, sub_def, Dbl.add, Dbl.neg, Dbl.lt, EPSILON]
  | nan => simp [compare_nan_not_lt]

/-! ## The intersection engine -/

/-- The function `intersect` returns the sentinel or a finite value above
`EPSILON`, whatever its arguments and the library are. -/
theorem intersect_range (m : MathLib K) (ray : Ray K) (s : Sphere K) :
    intersect m ray s = pinf ∨ ∃ q, eps < q ∧ intersect m ray s = fin q := by
  unfold intersect
  simp only [INFINITY]
  split_ifs with h1 h2 h3 h4 h5
  · right
    obtain ⟨q, hq, hq2⟩ := (accept_iff _ _ rfl).1 h2
    exact ⟨q, hq2, hq⟩
  · left; rfl
  · right
    obtain ⟨q, hq, hq2⟩ := (accept_iff _ _ rfl).1 h4
    exact ⟨q, hq2, hq⟩
  · right
    obtain ⟨q, hq, hq2⟩ := (accept_iff _ _ rfl).1 h5
    exact ⟨q, hq2, hq⟩
  · left; rfl
  · left; rfl

theorem intersect_eq_intersectSolve (m : MathLib K) (ray : Ray K) (sphere : Sphere K) :
    intersect m ray sphere =
      intersectSolve m (Vec3.dot ray.dir ray.dir)
        (fin 2 * Vec3.dot ray.dir (Vec3.sub ray.orig sphere.cent))
        (Vec3.dot (Vec3.sub ray.orig sphere.cent) (Vec3.sub ray.orig sphere.cent)
          - sphere.rad * sphere.rad) := rfl

theorem intersectSolve_pos (m : MathLib K) (a b c s : K) (ha : 0 < a)
    (h : eps < b * b - 4 * a * c) (hs : m.sqrt (fin (b * b - 4 * a * c)) = fin s) :
    intersectSolve m (fin a) (fin b) (fin c) =
      if eps < (-b - s) / (2 * a) then fin ((-b - s) / (2 * a))
      else if eps < (-b + s) / (2 * a) then fin ((-b + s) / (2 * a))
      else pinf := by
  have he : (0 : K) < eps := eps_pos
  have ha2 : (2 : K) * a ≠ 0 := by positivity
  have h1 : ¬ b * b - 4 * a * c < -eps := by linarith
  have hst : compare (fin (b * b - 4 * a * c)) (fin 0) = 1 := by
    simp [compare_fin_fin, h1, h]
  simp only [intersectSolve, fin_mul_fin, fin_sub_fin, fin_add_fin, neg_fin, hst, hs, if_true,
    fin_div_fin _ _ ha2, INFINITY, compare_fin_fin_lt, compare_fin_pinf, and_true, zero_add,
    one_ne_zero, if_false]

/-- The rational square root is exact on squares. -/
theorem sqrtQ_mul_self (q : ℚ) (hq : 0 ≤ q) : sqrtQ (fin (q * q)) = fin q := by
  have hn : 0 ≤ q.num := Rat.num_nonneg.2 hq
  obtain ⟨n, hn'⟩ := Int.eq_ofNat_of_zero_le hn
  have h1 : (q * q).num = q.num * q.num := Rat.mul_self_num q
  have h2 : (q * q).den = q.den * q.den := Rat.mul_self_den q
  have h0 : ¬ q * q < 0 := not_lt.2 (mul_self_nonneg q)
  simp only [sqrtQ, h0, if_false, h1, h2, hn', Nat.sqrt_eq]
  congr 1
  have : ((n * n : ℕ) : ℤ) = (n : ℤ) * (n : ℤ) := by push_cast; ring
  rw [← this, Int.toNat_natCast, Nat.sqrt_eq]
  have h3 : ((n : ℤ) : ℚ) = (n : ℚ) := by push_cast; rfl
  calc (n : ℚ) / (q.den : ℚ) = ((q.num : ℤ) : ℚ) / (q.den : ℚ) := by rw [hn', h3]
    _ = q := Rat.num_div_den q

/-! ## Concrete intersections -/

theorem sqrtQ_four : sqrtQ (fin 4) = fin 2 := by
  have := sqrtQ_mul_self 2 (by norm_num)
  norm_num at this
  exact this

theorem intersect_rayX_sphereAhead : intersect mathQ rayX sphereAhead = fin 2 := by
  rw [intersect_eq_intersectSolve]
  have e := intersectSolve_pos mathQ 1 (-6) 8 2
    one_pos (by norm_num [eps]) (by norm_num [mathQ]; exact sqrtQ_four)
  norm_num [eps] at e
  norm_num [rayX, sphereAhead, vecQ, Vec3.sub, Vec3.dot]
  rw [← e]

theorem intersect_rayX_sphereCloser :
    intersect mathQ rayX sphereCloser = fin (2 - 1 / 2048) := by
  rw [intersect_eq_intersectSolve]
  have e := intersectSolve_pos mathQ 1 (-(2 * (3 - 1 / 2048)))
    ((3 - 1 / 2048) * (3 - 1 / 2048) - 1) 2
    one_pos (by norm_num [eps]) (by norm_num [mathQ]; exact sqrtQ_four)
  norm_num [eps] at e
  norm_num [rayX, sphereCloser, vecQ, Vec3.sub, Vec3.dot]
  rw [← e]

/-! ## The branches of `intersect` -/

theorem traceRayLoop_all_miss (m : MathLib K) (ray : Ray K) (l : List (Sphere K))
    (h : ∀ s ∈ l, intersect m ray s = pinf) (i index : Int) :
    traceRayLoop m ray l i index pinf = (index, pinf) := by
  induction l generalizing i with
  | nil => rfl
  | cons s rest ih =>
    have hs : intersect m ray s = pinf := h s (List.mem_cons_self _ _)
    have hr : ∀ s ∈ rest, intersect m ray s = pinf :=
      fun s' hs' => h s' (List.mem_cons_of_mem _ hs')
    simp only [traceRayLoop, hs, compare_pinf_not_lt, if_false]
    exact ih hr _

/-! ## The nearest-hit loop -/

theorem isDist_intersect (m : MathLib K) (ray : Ray K) (s : Sphere K) :
    IsDist (intersect m ray s) := by
  rcases intersect_range m ray s with h | ⟨q, -, h⟩
  · exact Or.inl h
  · exact Or.inr ⟨q, h⟩

theorem compare_self_not_lt (z : Dbl K) : ¬ compare z z < 0 := by
  have he : (0 : K) < eps := eps_pos
  rw [compare_lt_zero_iff]
  cases z <;> simp [sub_def, Dbl.add, Dbl.neg, Dbl.lt, EPSILON]
  linarith

/-- A distance that the comparator reports closer is smaller. -/
theorem lt_of_compare_lt {a b : Dbl K} (ha : IsDist a) (hb : IsDist b)
    (h : compare a b < 0) : Dbl.lt a b = true := by
  have he : (0 : K) < eps := eps_pos
  rcases ha with rfl | ⟨x, rfl⟩
  · exact absurd h (compare_pinf_not_lt _)
  rcases hb with rfl | ⟨y, rfl⟩
  · rfl
  · rw [compare_fin_fin_lt] at h
    simp only [lt_fin_fin, decide_eq_true_eq]
    linarith

theorem compare_lt_trans {a b c : Dbl K} (ha : IsDist a) (hb : IsDist b) (hc : IsDist c)
    (h1 : compare a b < 0) (h2 : compare b c < 0) : compare a c < 0 := by
  have he : (0 : K) < eps := eps_pos
  rcases ha with rfl | ⟨x, rfl⟩
  · exact absurd h1 (compare_pinf_not_lt _)
  rcases hb with rfl | ⟨y, rfl⟩
  · exact absurd h2 (compare_pinf_not_lt _)
  rcases hc with rfl | ⟨z, rfl⟩
  · exact compare_fin_pinf x
  · rw [compare_fin_fin_lt] at h1 h2 ⊢
    linarith

/-- A distance the comparator reports closer than `t` is smaller than every
distance it does not report closer than `t`. -/
theorem lt_of_compare_lt_of_not {a b t : Dbl K} (ha : IsDist a) (hb : IsDist b)
    (ht : IsDist t) (h1 : compare a t < 0) (h2 : ¬ compare b t < 0) : Dbl.lt a b = true := by
  rcases ha with rfl | ⟨x, rfl⟩
  · exact absurd h1 (compare_pinf_not_lt _)
  rcases hb with rfl | ⟨y, rfl⟩
  · rfl
  rcases ht with rfl | ⟨z, rfl⟩
  · exact absurd (compare_fin_pinf y) h2
  · rw [compare_fin_fin_lt] at h1 h2
    simp only [lt_fin_fin, decide_eq_true_eq]
    linarith

theorem not_compare_lt_of_lt {a b : Dbl K} (ha : IsDist a) (hb : IsDist b)
    (h : Dbl.lt a b = true) : ¬ compare b a < 0 := by
  have he : (0 : K) < eps := eps_pos
  rcases hb with rfl | ⟨y, rfl⟩
  · exact compare_pinf_not_lt _
  rcases ha with rfl | ⟨x, rfl⟩
  · simp [Dbl.lt] at h
  · rw [compare_fin_fin_lt]
    simp only [lt_fin_fin, decide_eq_true_eq] at h
    linarith

/-- The loop of `traceRay`: either it never updates its variables and no sphere
is closer than the initial `t0`, or it ends on a sphere `l[k]` that is closer than
`t0`, smaller than every sphere before it, and than which no sphere is closer. -/
theorem traceRayLoop_spec (m : MathLib K) (ray : Ray K) (l : List (Sphere K)) :
    ∀ (i0 index0 : Int) (t0 : Dbl K), IsDist t0 →
      (traceRayLoop m ray l i0 index0 t0 = (index0, t0) ∧
        ∀ s ∈ l, ¬ compare (intersect m ray s) t0 < 0) ∨
      (∃ (k : Nat) (s : Sphere K), l[k]? = some s ∧
        traceRayLoop m ray l i0 index0 t0 = (i0 + (k : Int), intersect m ray s) ∧
        compare (intersect m ray s) t0 < 0 ∧
        (∀ (j : Nat) (s' : Sphere K), j < k → l[j]? = some s' →
          Dbl.lt (intersect m ray s) (intersect m ray s') = true) ∧
        (∀ s' ∈ l, ¬ compare (intersect m ray s') (intersect m ray s) < 0)) := by
  induction l with
  | nil =>
    intro i0 index0 t0 _
    left
    exact ⟨rfl, by simp⟩
  | cons s rest ih =>
    intro i0 index0 t0 ht0
    have hz := isDist_intersect m ray s
    by_cases hc : compare (intersect m ray s) t0 < 0
    · have hstep : traceRayLoop m ray (s :: rest) i0 index0 t0 =
          traceRayLoop m ray rest (i0 + 1) i0 (intersect m ray s) := by
        simp [traceRayLoop, hc]
      right
      rcases ih (i0 + 1) i0 (intersect m ray s) hz with ⟨hr, hall⟩ | ⟨k, s1, hk, hr, hc1, hbef, hall⟩
      · refine ⟨0, s, by simp, ?_, hc, ?_, ?_⟩
        · rw [hstep, hr]; simp
        · intro j s' hj; exact absurd hj (Nat.not_lt_zero j)
        · intro s' hs'
          rcases List.mem_cons.1 hs' with rfl | h
          · exact compare_self_not_lt _
          · exact hall s' h
      · have hz1 := isDist_intersect m ray s1
        have hlt : Dbl.lt (intersect m ray s1) (intersect m ray s) = true :=
          lt_of_compare_lt hz1 hz hc1
        refine ⟨k + 1, s1, by simpa using hk, ?_, compare_lt_trans hz1 hz ht0 hc1 hc, ?_, ?_⟩
        · rw [hstep, hr]; congr 1; push_cast; ring
        · intro j s' hj hs'
          cases j with
          | zero =>
            have : s = s' := by simpa using hs'
            subst this
            exact hlt
          | succ j' => exact hbef j' s' (by omega) (by simpa using hs')
        · intro s' hs'
          rcases List.mem_cons.1 hs' with rfl | h
          · exact not_compare_lt_of_lt hz1 hz hlt
          · exact hall s' h
    · have hstep : traceRayLoop m ray (s :: rest) i0 index0 t0 =
          traceRayLoop m ray rest (i0 + 1) index0 t0 := by
        simp [traceRayLoop, hc]
      rcases ih (i0 + 1) index0 t0 ht0 with ⟨hr, hall⟩ | ⟨k, s1, hk, hr, hc1, hbef, hall⟩
      · left
        refine ⟨by rw [hstep, hr], ?_⟩
        intro s' hs'
        rcases List.mem_cons.1 hs' with rfl | h
        · exact hc
        · exact hall s' h
      · right
        have hz1 := isDist_intersect m ray s1
        have hlt : Dbl.lt (intersect m ray s1) (intersect m ray s) = true :=
          lt_of_compare_lt_of_not hz1 hz ht0 hc1 hc
        refine ⟨k + 1, s1, by simpa using hk, ?_, hc1, ?_, ?_⟩
        · rw [hstep, hr]; congr 1; push_cast; ring
        · intro j s' hj hs'
          cases j with
          | zero =>
            have : s = s' := by simpa using hs'
            subst this
            exact hlt
          | succ j' => exact hbef j' s' (by omega) (by simpa using hs')
        · intro s' hs'
          rcases List.mem_cons.1 hs' with rfl | h
          · exact not_compare_lt_of_lt hz1 hz hlt
          · exact hall s' h

/-! ## C4: the sphere that `traceRay` shades -/

/-- C4, amended.  For every scene and ray for which at least one sphere has a
finite `intersect` distance, `traceRay` passes to `traceLight` an index `i` and the
distance `t = intersect(ray, spheres[i])`, where `t` is finite, every sphere before
`i` has a distance strictly greater than `t`, and no sphere has a distance smaller
than `t - EPSILON`. -/
theorem traceRay_shades_nearest_within_eps (m : MathLib K) (sc : Scene K) (ray : Ray K)
    (step : Int) (hhit : ∃ s ∈ sc.spheres, ∃ z, intersect m ray s = fin z) :
    ∃ (i : Nat) (s : Sphere K) (t : K), sc.spheres[i]? = some s ∧
      intersect m ray s = fin t ∧
      traceRay m sc ray step = traceLight m sc ray (i : Int) (fin t) step ∧
      (∀ (j : Nat) (s' : Sphere K) (z : K), j < i → sc.spheres[j]? = some s' →
        intersect m ray s' = fin z → t < z) ∧
      (∀ s' ∈ sc.spheres, ∀ z, intersect m ray s' = fin z → t ≤ z + eps) := by
  obtain ⟨s0, hs0, z0, hz0⟩ := hhit
  rcases traceRayLoop_spec m ray sc.spheres 0 (-1) pinf (Or.inl rfl) with
    ⟨-, hall⟩ | ⟨k, s, hk, hr, hc, hbef, hall⟩
  · exact absurd (hz0 ▸ compare_fin_pinf z0) (hall s0 hs0)
  · rcases isDist_intersect m ray s with hp | ⟨t, ht⟩
    · exact absurd (hp ▸ hc) (compare_pinf_not_lt _)
    · refine ⟨k, s, t, hk, ht, ?_, ?_, ?_⟩
      · rw [traceRay]
        simp only [INFINITY, hr, ht, zero_add]
        have : ¬ compare (fin t) (pinf : Dbl K) ≥ 0 := not_le.2 (compare_fin_pinf t)
        simp [this]
      · intro j s' z hj hs' hz
        have := hbef j s' hj hs'
        rw [ht, hz] at this
        simpa using this
      · intro s' hs' z hz
        have := hall s' hs'
        rw [ht, hz, compare_fin_fin_lt] at this
        exact not_lt.1 this

/-- C4, an instance: the scene `sceneTwo` and the ray `rayX`, which meets
`sphereAhead` at `t = 2`. -/
theorem traceRay_shades_nearest_within_eps_witness :
    (∃ s ∈ sceneTwo.spheres, ∃ z, intersect mathQ rayX s = fin z) ∧
    ∃ (i : Nat) (s : Sphere ℚ) (t : ℚ), sceneTwo.spheres[i]? = some s ∧
      intersect mathQ rayX s = fin t ∧
      traceRay mathQ sceneTwo rayX 4 = traceLight mathQ sceneTwo rayX (i : Int) (fin t) 4 ∧
      (∀ (j : Nat) (s' : Sphere ℚ) (z : ℚ), j < i → sceneTwo.spheres[j]? = some s' →
        intersect mathQ rayX s' = fin z → t < z) ∧
      (∀ s' ∈ sceneTwo.spheres, ∀ z, intersect mathQ rayX s' = fin z → t ≤ z + eps) := by
  have h : ∃ s ∈ sceneTwo.spheres, ∃ z, intersect mathQ rayX s = fin z :=
    ⟨sphereAhead, by simp [sceneTwo], 2, intersect_rayX_sphereAhead⟩
  exact ⟨h, traceRay_shades_nearest_within_eps mathQ sceneTwo rayX 4 h⟩

/-- C4 as stated fails.  In the scene `sceneTwo` the ray `rayX` meets sphere 0 at
`t = 2` and sphere 1 at the smaller `t = 2 - 2^-11`; the comparator does not
report the second closer, the loop of `traceRay` ends with index `0` and `t = 2`,
and `traceRay` shades sphere 0 at `t = 2`. -/
theorem traceRay_keeps_farther_sphere :
    sceneTwo.spheres = [sphereAhead, sphereCloser] ∧
    intersect mathQ rayX sphereAhead = fin 2 ∧
    intersect mathQ rayX sphereCloser = fin (2 - 1 / 2048) ∧
    (2 - 1 / 2048 : ℚ) < 2 ∧
    traceRayLoop mathQ rayX sceneTwo.spheres 0 (-1) INFINITY = (0, fin 2) ∧
    (∀ step, traceRay mathQ sceneTwo rayX step
      = traceLight mathQ sceneTwo rayX 0 (fin 2) step) := by
  have hloop : traceRayLoop mathQ rayX sceneTwo.spheres 0 (-1) INFINITY = (0, fin 2) := by
    simp only [sceneTwo, traceRayLoop, intersect_rayX_sphereAhead, intersect_rayX_sphereCloser,
      INFINITY, compare_fin_pinf, if_true, compare_fin_fin_lt]
    norm_num [eps]
  refine ⟨rfl, intersect_rayX_sphereAhead, intersect_rayX_sphereCloser, by norm_num, hloop, ?_⟩
  intro step
  rw [traceRay]
  simp only [hloop]
  have : ¬ compare (fin 2) (INFINITY : Dbl ℚ) ≥ 0 := not_le.2 (compare_fin_pinf 2)
  simp [this]

/-! ## The reflectivity test of `traceLight` and a concrete scene -/

/-- A reflectivity that is `≤ 0` passes the test `compare(0.0, refl) >= 0`. -/
theorem compare_zero_ge_of_le (r : Dbl K) (h : Dbl.le r (fin 0) = true) :
    compare (fin 0) r ≥ 0 := by
  have he : (0 : K) < eps := eps_pos
  rw [ge_iff_le, ← not_lt]
  cases r with
  | fin x =>
    simp only [Dbl.le, decide_eq_true_eq] at h
    rw [compare_fin_fin_lt]
    linarith
  | pinf => simp [Dbl.le] at h
  | ninf => simp [compare_lt_zero_iff, sub_def, Dbl.add, Dbl.neg, Dbl.lt, EPSILON]
  | nan => simp [Dbl.le] at h

/-- The test `compare(0.0, refl) >= 0` fails exactly when `refl > EPSILON`. -/
theorem compare_zero_ge_iff (r : Dbl K) :
    compare (fin 0) r ≥ 0 ↔ ¬ Dbl.lt EPSILON r = true := by
  rw [ge_iff_le, ← not_lt, not_iff_not]
  cases r with
  | fin x => simp [compare_fin_fin_lt, EPSILON]
  | pinf => simp [compare_lt_zero_iff, sub_def, Dbl.add, Dbl.neg, Dbl.lt, EPSILON]
  | ninf => simp [compare_lt_zero_iff, sub_def, Dbl.add, Dbl.neg, Dbl.lt, EPSILON]
  | nan => simp [compare_lt_zero_iff, sub_def, Dbl.add, Dbl.neg, Dbl.lt, EPSILON]

/-- The function `traceLight` is its body with `traceRay` as the recursive call. -/
theorem traceLightWith_traceRay (m : MathLib K) (sc : Scene K) (ray : Ray K) (index : Int)
    (t : Dbl K) (step : Int) :
    traceLightWith m sc (fun r s => some (traceRay m sc r s)) ray index t step
      = some (traceLight m sc ray index t step) := by
  rw [traceLight]
  unfold traceLightWith
  by_cases h1 : compare (fin 0) (texture sc index).refl ≥ 0
  · simp [h1]
  · by_cases h2 : step ≤ 0
    · simp [h1, h2]
    · simp [h1, h2]

theorem traceRay_of_all_miss (m : MathLib K) (sc : Scene K) (ray : Ray K) (step : Int)
    (h : ∀ s ∈ sc.spheres, intersect m ray s = pinf) :
    traceRay m sc ray step = background := by
  rw [traceRay]
  simp only [INFINITY, traceRayLoop_all_miss m ray sc.spheres h]
  simp [compare_pinf_not_lt]

theorem texture_sceneOf (r : ℚ) : texture (sceneOf r) 0 = ⟨fin 1, fin 1, fin 1, fin 1, fin r⟩ := by
  simp [texture, readAt, sceneOf, sphereAhead]

theorem localColor_sceneOf (r : ℚ) (ray : Ray ℚ) (t : Dbl ℚ) :
    localColor mathQ (sceneOf r) ray 0 t = vecQ 1 1 1 := by
  simp [localColor, pigment, texture, readAt, sceneOf, sphereAhead, Vec3.mulv, Vec3.scale, vecQ]

theorem hitPoint_rayX_two : hitPoint rayX (fin 2) = vecQ (2047 / 1024) 0 0 := by
  norm_num [hitPoint, rayX, vecQ, Vec3.add, Vec3.scale, EPSILON, eps]

theorem shadingNormal_sceneOf (r : ℚ) :
    shadingNormal mathQ (sceneOf r) rayX 0 (fin 2) = vecQ (-1) 0 0 := by
  have h9 : sqrtQ (fin 9) = fin 3 := by
    have := sqrtQ_mul_self 3 (by norm_num)
    norm_num at this
    exact this
  have h1 : sqrtQ (fin (1050625 / 1048576)) = fin (1025 / 1024) := by
    have := sqrtQ_mul_self (1025 / 1024) (by norm_num)
    norm_num at this
    exact this
  have hc : readAt (sceneOf r).spheres 0 = sphereAhead := by
    simp [readAt, sceneOf]
  simp only [shadingNormal, hitPoint_rayX_two, hc]
  norm_num [sphereAhead, rayX, vecQ, Vec3.sub, Vec3.length, Vec3.normalize, Vec3.divide,
    Vec3.scale, mathQ, h9, h1, Dbl.eq, fin_div_fin]

theorem reflect_rayX : Vec3.reflect rayX.dir (vecQ (-1) 0 0) = vecQ (-1) 0 0 := by
  norm_num [Vec3.reflect, Vec3.dot, Vec3.sub, Vec3.scale, rayX, vecQ]

theorem traceRay_reflected_sceneOf (r : ℚ) (step : Int) :
    traceRay mathQ (sceneOf r) ⟨vecQ (2047 / 1024) 0 0, vecQ (-1) 0 0⟩ step = background := by
  apply traceRay_of_all_miss
  intro s hs
  have hs' : s = sphereAhead := by simpa [sceneOf] using hs
  subst hs'
  rw [intersect_eq_intersectSolve]
  have e := intersectSolve_pos mathQ 1 (1025 / 512) (1025 / 1024 * (1025 / 1024) - 1) 2
    one_pos (by norm_num [eps]) (by norm_num [mathQ]; exact sqrtQ_four)
  norm_num [eps] at e
  norm_num [sphereAhead, vecQ, Vec3.sub, Vec3.dot]
  rw [← e]

/-! ## C5: matte surfaces -/

/-- C5.  For every scene, ray, hit index and hit distance: if the reflectivity of
the hit sphere's texture is `≤ 0`, `traceLight` returns the accumulated local
colour unchanged, for every value of the budget `step`; and it makes no recursive
call: its body returns that colour whatever stands for the recursive call, a
`trace` that always fails included. -/
theorem traceLight_matte (m : MathLib K) (sc : Scene K) (ray : Ray K) (index : Int)
    (t : Dbl K) (hrefl : Dbl.le (texture sc index).refl (fin 0) = true) :
    (∀ step, traceLight m sc ray index t step = localColor m sc ray index t) ∧
    (∀ trace step, traceLightWith m sc trace ray index t step
      = some (localColor m sc ray index t)) := by
  have h := compare_zero_ge_of_le _ hrefl
  constructor
  · intro step
    rw [traceLight]
    simp [h]
  · intro trace step
    simp [traceLightWith, h]

/-- C5, an instance: the scene `sceneOf 0`, of reflectivity `0`. -/
theorem traceLight_matte_witness :
    Dbl.le (texture (sceneOf 0) 0).refl (fin 0) = true ∧
    ((∀ step, traceLight mathQ (sceneOf 0) rayX 0 (fin 2) step
      = localColor mathQ (sceneOf 0) rayX 0 (fin 2)) ∧
    (∀ trace step, traceLightWith mathQ (sceneOf 0) trace rayX 0 (fin 2) step
      = some (localColor mathQ (sceneOf 0) rayX 0 (fin 2)))) := by
  have h : Dbl.le (texture (sceneOf 0) 0).refl (fin 0) = true := by
    simp [texture_sceneOf, Dbl.le]
  exact ⟨h, traceLight_matte mathQ (sceneOf 0) rayX 0 (fin 2) h⟩

/-! ## C6: the exhausted budget -/

/-- C6, amended.  For every scene, ray, hit index and hit distance: if the budget
`step` is `≤ 0` and the reflectivity of the hit sphere is `> EPSILON`,
`traceLight` returns `(1 - reflectivity) * local_colour`, and it makes no
recursive call: its body returns that colour whatever stands for the recursive
call. -/
theorem traceLight_budget_exhausted (m : MathLib K) (sc : Scene K) (ray : Ray K)
    (index : Int) (t : Dbl K) (step : Int) (hstep : step ≤ 0)
    (hrefl : Dbl.lt EPSILON (texture sc index).refl = true) :
    traceLight m sc ray index t step
      = Vec3.smul (fin 1 - (texture sc index).refl) (localColor m sc ray index t) ∧
    ∀ trace, traceLightWith m sc trace ray index t step
      = some (Vec3.smul (fin 1 - (texture sc index).refl) (localColor m sc ray index t)) := by
  have h : ¬ compare (fin 0) (texture sc index).refl ≥ 0 := by
    rw [compare_zero_ge_iff]; simpa using hrefl
  constructor
  · rw [traceLight]
    simp [h, hstep]
  · intro trace
    simp [traceLightWith, h, hstep]

/-- C6, an instance: the scene `sceneOf (1/2)`, of reflectivity `1/2`, with the
budget `0`. -/
theorem traceLight_budget_exhausted_witness :
    ((0 : Int) ≤ 0 ∧ Dbl.lt EPSILON (texture (sceneOf (1 / 2)) 0).refl = true) ∧
    (traceLight mathQ (sceneOf (1 / 2)) rayX 0 (fin 2) 0
      = Vec3.smul (fin 1 - (texture (sceneOf (1 / 2)) 0).refl)
          (localColor mathQ (sceneOf (1 / 2)) rayX 0 (fin 2)) ∧
    ∀ trace, traceLightWith mathQ (sceneOf (1 / 2)) trace rayX 0 (fin 2) 0
      = some (Vec3.smul (fin 1 - (texture (sceneOf (1 / 2)) 0).refl)
          (localColor mathQ (sceneOf (1 / 2)) rayX 0 (fin 2)))) := by
  have h : Dbl.lt EPSILON (texture (sceneOf (1 / 2)) 0).refl = true := by
    norm_num [texture_sceneOf, EPSILON, eps]
  exact ⟨⟨le_refl 0, h⟩,
    traceLight_budget_exhausted mathQ (sceneOf (1 / 2)) rayX 0 (fin 2) 0 (le_refl 0) h⟩

/-- C6 as stated fails.  In the scene `sceneOf (1/2048)` the reflectivity is
`2^-11 > 0` and the local colour is `(1, 1, 1)`; with the budget `0`, `traceLight`
returns `(1, 1, 1)`, the local colour unscaled, and not
`(1 - reflectivity) * local_colour = (2047/2048, 2047/2048, 2047/2048)`. -/
theorem traceLight_faint_budget_exhausted :
    (texture (sceneOf (1 / 2048)) 0).refl = fin (1 / 2048) ∧ (0 : ℚ) < 1 / 2048 ∧
    (0 : Int) ≤ 0 ∧
    traceLight mathQ (sceneOf (1 / 2048)) rayX 0 (fin 2) 0 = vecQ 1 1 1 ∧
    Vec3.smul (fin 1 - (texture (sceneOf (1 / 2048)) 0).refl)
        (localColor mathQ (sceneOf (1 / 2048)) rayX 0 (fin 2))
      = vecQ (2047 / 2048) (2047 / 2048) (2047 / 2048) ∧
    vecQ 1 1 1 ≠ vecQ (2047 / 2048) (2047 / 2048) (2047 / 2048) := by
  refine ⟨by rw [texture_sceneOf], by norm_num, le_refl 0, ?_, ?_, ?_⟩
  · rw [traceLight]
    have h : compare (fin 0) (texture (sceneOf (1 / 2048)) 0).refl ≥ 0 := by
      rw [compare_zero_ge_iff]
      norm_num [texture_sceneOf, EPSILON, eps]
    simp only [h, if_true, localColor_sceneOf]
  · rw [localColor_sceneOf, texture_sceneOf]
    norm_num [Vec3.smul, vecQ]
  · norm_num [vecQ]

/-! ## C7: the reflected ray -/

/-- C7, amended.  For every scene, ray, hit index and hit distance: if the budget
`step` is `> 0` and the reflectivity of the hit sphere is `> EPSILON`, `traceLight`
returns `(1 - reflectivity) * local_colour + reflectivity * traceRay(R, step - 1)`,
where `R` has its origin at the hit point `orig + dir * (t - EPSILON)` and the
direction `reflect(dir, normal)` for the shading normal (the unit vector from the
centre to the hit point, flipped when the ray starts inside the sphere). -/
theorem traceLight_reflects (m : MathLib K) (sc : Scene K) (ray : Ray K)
    (index : Int) (t : Dbl K) (step : Int) (hstep : 0 < step)
    (hrefl : Dbl.lt EPSILON (texture sc index).refl = true) :
    traceLight m sc ray index t step
      = Vec3.add (Vec3.smul (fin 1 - (texture sc index).refl) (localColor m sc ray index t))
          (Vec3.smul (texture sc index).refl
            (traceRay m sc
              ⟨Vec3.add ray.orig (Vec3.scale ray.dir (t - EPSILON)),
                Vec3.reflect ray.dir (shadingNormal m sc ray index t)⟩ (step - 1))) := by
  have h : ¬ compare (fin 0) (texture sc index).refl ≥ 0 := by
    rw [compare_zero_ge_iff]; simpa using hrefl
  rw [traceLight]
  simp [h, not_le.2 hstep, reflectedRay, hitPoint]

/-- C7, an instance: the scene `sceneOf (1/2)`, of reflectivity `1/2`, with the
budget `1`. -/
theorem traceLight_reflects_witness :
    ((0 : Int) < 1 ∧ Dbl.lt EPSILON (texture (sceneOf (1 / 2)) 0).refl = true) ∧
    traceLight mathQ (sceneOf (1 / 2)) rayX 0 (fin 2) 1
      = Vec3.add (Vec3.smul (fin 1 - (texture (sceneOf (1 / 2)) 0).refl)
            (localColor mathQ (sceneOf (1 / 2)) rayX 0 (fin 2)))
          (Vec3.smul (texture (sceneOf (1 / 2)) 0).refl
            (traceRay mathQ (sceneOf (1 / 2))
              ⟨Vec3.add rayX.orig (Vec3.scale rayX.dir (fin 2 - EPSILON)),
                Vec3.reflect rayX.dir (shadingNormal mathQ (sceneOf (1 / 2)) rayX 0 (fin 2))⟩
              (1 - 1))) := by
  have h : Dbl.lt EPSILON (texture (sceneOf (1 / 2)) 0).refl = true := by
    norm_num [texture_sceneOf, EPSILON, eps]
  exact ⟨⟨one_pos, h⟩,
    traceLight_reflects mathQ (sceneOf (1 / 2)) rayX 0 (fin 2) 1 one_pos h⟩

/-- C7 as stated fails.  In the scene `sceneOf (1/2048)` the reflectivity is
`2^-11 > 0` and the local colour is `(1, 1, 1)`; with the budget `1`, `traceLight`
returns `(1, 1, 1)`, the local colour, and not the blend with the colour of the
reflected ray (which misses the sphere and sees the background), which is
`(4095/4096, 4095/4096, 4095/4096)`. -/
theorem traceLight_faint_no_reflection :
    (texture (sceneOf (1 / 2048)) 0).refl = fin (1 / 2048) ∧ (0 : ℚ) < 1 / 2048 ∧
    (0 : Int) < 1 ∧
    traceLight mathQ (sceneOf (1 / 2048)) rayX 0 (fin 2) 1 = vecQ 1 1 1 ∧
    Vec3.add (Vec3.smul (fin 1 - (texture (sceneOf (1 / 2048)) 0).refl)
          (localColor mathQ (sceneOf (1 / 2048)) rayX 0 (fin 2)))
        (Vec3.smul (texture (sceneOf (1 / 2048)) 0).refl
          (traceRay mathQ (sceneOf (1 / 2048))
            ⟨Vec3.add rayX.orig (Vec3.scale rayX.dir (fin 2 - EPSILON)),
              Vec3.reflect rayX.dir
                (shadingNormal mathQ (sceneOf (1 / 2048)) rayX 0 (fin 2))⟩
            (1 - 1)))
      = vecQ (4095 / 4096) (4095 / 4096) (4095 / 4096) ∧
    vecQ 1 1 1 ≠ vecQ (4095 / 4096) (4095 / 4096) (4095 / 4096) := by
  refine ⟨by rw [texture_sceneOf], by norm_num, one_pos, ?_, ?_, ?_⟩
  · rw [traceLight]
    have h : compare (fin 0) (texture (sceneOf (1 / 2048)) 0).refl ≥ 0 := by
      rw [compare_zero_ge_iff]
      norm_num [texture_sceneOf, EPSILON, eps]
    simp only [h, if_true, localColor_sceneOf]
  · have hp : Vec3.add rayX.orig (Vec3.scale rayX.dir (fin 2 - EPSILON))
        = vecQ (2047 / 1024) 0 0 := hitPoint_rayX_two
    rw [hp, shadingNormal_sceneOf, reflect_rayX, traceRay_reflected_sceneOf,
      localColor_sceneOf, texture_sceneOf]
    norm_num [Vec3.smul, Vec3.add, vecQ, background]
  · norm_num [vecQ]

/-! ## C8: termination -/

/-- The fuel-bounded run agrees with `traceRay` as soon as the fuel exceeds the
budget. -/
theorem traceRayFuel_eq (m : MathLib K) (sc : Scene K) :
    ∀ (n : Nat) (ray : Ray K) (step : Int) (k : Nat), step.toNat = n →
      traceRayFuel m sc (n + 1 + k) ray step = some (traceRay m sc ray step) := by
  intro n
  induction n with
  | zero =>
    intro ray step k hn
    have hstep : step ≤ 0 := Int.toNat_eq_zero.1 hn
    have e : 0 + 1 + k = k + 1 := by omega
    rw [e, traceRayFuel, traceRay]
    by_cases hb : compare (traceRayLoop m ray sc.spheres 0 (-1) INFINITY).2 INFINITY ≥ 0
    · simp [hb]
    · simp only [hb, if_false]
      rw [traceLight]
      unfold traceLightWith
      by_cases h1 : compare (fin 0)
          (texture sc (traceRayLoop m ray sc.spheres 0 (-1) INFINITY).1).refl ≥ 0
      · simp [h1]
      · simp [h1, hstep]
  | succ n ih =>
    intro ray step k hn
    have hstep : ¬ step ≤ 0 := by omega
    have hn' : (step - 1).toNat = n := by omega
    have e : n + 1 + 1 + k = (n + 1 + k) + 1 := by omega
    rw [e, traceRayFuel, traceRay]
    by_cases hb : compare (traceRayLoop m ray sc.spheres 0 (-1) INFINITY).2 INFINITY ≥ 0
    · simp [hb]
    · simp only [hb, if_false]
      rw [traceLight]
      unfold traceLightWith
      by_cases h1 : compare (fin 0)
          (texture sc (traceRayLoop m ray sc.spheres 0 (-1) INFINITY).1).refl ≥ 0
      · simp [h1]
      · simp [h1, hstep, ih _ (step - 1) k hn']

/-- C8.  The pair `traceRay` / `traceLight` terminates for every scene, ray and
integer budget `step`, negative ones included: run with a bound on the nesting of
`traceRay` invocations, it returns the value of `traceRay` as soon as the bound is
at least `max(step, 0) + 1`.  The body of `traceLight`, with `traceRay` as its
recursive call, is `traceLight`; and it consults the recursive call only when
`step > 0`, and then only for the reflected ray with the budget `step - 1`. -/
theorem traceRay_terminates_within_budget (m : MathLib K) (sc : Scene K) (ray : Ray K)
    (step : Int) :
    (∀ k : Nat, traceRayFuel m sc ((max step 0).toNat + 1 + k) ray step
      = some (traceRay m sc ray step)) ∧
    (∀ (index : Int) (t : Dbl K),
      traceLightWith m sc (fun r s => some (traceRay m sc r s)) ray index t step
        = some (traceLight m sc ray index t step)) ∧
    (∀ (index : Int) (t : Dbl K) (traceA traceB : Ray K → Int → Option (Vec3 K)),
      (0 < step → traceA (reflectedRay m sc ray index t) (step - 1)
        = traceB (reflectedRay m sc ray index t) (step - 1)) →
      traceLightWith m sc traceA ray index t step
        = traceLightWith m sc traceB ray index t step) := by
  refine ⟨?_, ?_, ?_⟩
  · intro k
    have e : (max step 0).toNat = step.toNat := by
      rcases le_total step 0 with h | h
      · rw [max_eq_right h]; simp [Int.toNat_eq_zero.2 h]
      · rw [max_eq_left h]
    rw [e]
    exact traceRayFuel_eq m sc _ ray step k rfl
  · intro index t
    exact traceLightWith_traceRay m sc ray index t step
  · intro index t traceA traceB h
    unfold traceLightWith
    by_cases h1 : compare (fin 0) (texture sc index).refl ≥ 0
    · simp [h1]
    · by_cases h2 : step ≤ 0
      · simp [h1, h2]
      · simp [h1, h2, h (not_le.1 h2)]

/-! ## The shadow loop -/

theorem shadowLoop_fin (m : MathLib K) (light : Ray K) (distance : Dbl K)
    (l : List (Sphere K)) : ∀ x : K, ∃ y, shadowLoop m light distance l (fin x) = fin y := by
  induction l with
  | nil => intro x; exact ⟨x, rfl⟩
  | cons s rest ih =>
    intro x
    by_cases hc : compare (intersect m light s) (fin x) < 0 ∧
        compare (intersect m light s) distance < 0
    · rcases isDist_intersect m light s with hp | ⟨q, hq⟩
      · exact absurd (hp ▸ hc.1) (compare_pinf_not_lt _)
      · obtain ⟨y, hy⟩ := ih q
        refine ⟨y, ?_⟩
        simp only [shadowLoop, hc, and_self, if_true]
        rw [hq]; exact hy
    · obtain ⟨y, hy⟩ := ih x
      refine ⟨y, ?_⟩
      simp only [shadowLoop, hc, if_false]
      exact hy

/-- The shadow loop leaves `tn` at the sentinel exactly when the comparator reports
no sphere closer than the light. -/
theorem shadowLoop_pinf (m : MathLib K) (light : Ray K) (distance : Dbl K)
    (l : List (Sphere K)) :
    (shadowLoop m light distance l pinf = pinf ∨
      ∃ y, shadowLoop m light distance l pinf = fin y) ∧
    (shadowLoop m light distance l pinf = pinf ↔
      ∀ s ∈ l, ¬ compare (intersect m light s) distance < 0) := by
  induction l with
  | nil => exact ⟨Or.inl rfl, by simp [shadowLoop]⟩
  | cons s rest ih =>
    by_cases hc : compare (intersect m light s) pinf < 0 ∧
        compare (intersect m light s) distance < 0
    · rcases isDist_intersect m light s with hp | ⟨q, hq⟩
      · exact absurd (hp ▸ hc.1) (compare_pinf_not_lt _)
      · obtain ⟨y, hy⟩ := shadowLoop_fin m light distance rest q
        have e : shadowLoop m light distance (s :: rest) pinf = fin y := by
          simp only [shadowLoop, hc, and_self, if_true]
          rw [hq]; exact hy
        refine ⟨Or.inr ⟨y, e⟩, ?_⟩
        rw [e]
        constructor
        · intro h; exact absurd h (by simp)
        · intro h; exact absurd hc.2 (h s (List.mem_cons_self _ _))
    · have e : shadowLoop m light distance (s :: rest) pinf
          = shadowLoop m light distance rest pinf := by
        simp only [shadowLoop, hc, if_false]
      have hs : ¬ compare (intersect m light s) distance < 0 := by
        intro h
        rcases isDist_intersect m light s with hp | ⟨q, hq⟩
        · exact absurd (hp ▸ h) (compare_pinf_not_lt _)
        · exact hc ⟨hq ▸ compare_fin_pinf q, h⟩
      rw [e]
      refine ⟨ih.1, ih.2.trans ?_⟩
      constructor
      · intro h s' hs'
        rcases List.mem_cons.1 hs' with rfl | h'
        · exact hs
        · exact h s' h'
      · intro h s' hs'
        exact h s' (List.mem_cons_of_mem _ hs')

/-- The test `compare(tn, INFINITY) >= 0` after the shadow loop holds exactly when
the light is not occluded. -/
theorem shadowDistance_test (m : MathLib K) (sc : Scene K) (point : Vec3 K) (i : Int) :
    compare (shadowDistance m sc point i) INFINITY ≥ 0 ↔ ¬ Occluded m sc point i := by
  have h := shadowLoop_pinf m (shadowRay m sc point i) (lightDistance m sc point i) sc.spheres
  have e : shadowDistance m sc point i
      = shadowLoop m (shadowRay m sc point i) (lightDistance m sc point i) sc.spheres pinf := rfl
  rw [compare_INFINITY_ge, e]
  constructor
  · intro hp
    have hp' : shadowLoop m (shadowRay m sc point i) (lightDistance m sc point i)
        sc.spheres pinf = pinf := by
      rcases hp with hp | hp
      · exact hp
      · rcases h.1 with h1 | ⟨y, h1⟩
        · exact h1
        · rw [h1] at hp; exact absurd hp (by simp)
    rintro ⟨s, hs, z, hz, hcz⟩
    exact (h.2.1 hp') s hs (hz ▸ hcz)
  · intro hno
    left
    apply h.2.2
    intro s hs hc
    rcases isDist_intersect m (shadowRay m sc point i) s with hp | ⟨q, hq⟩
    · exact absurd (hp ▸ hc) (compare_pinf_not_lt _)
    · exact hno ⟨s, hs, q, hq, hq ▸ hc⟩

theorem readAt_set_ne {α : Type} [Inhabited α] (xs : List α) (i j : Nat) (a : α)
    (h : i ≠ j) : readAt (xs.set j a) (i : Int) = readAt xs (i : Int) := by
  simp [readAt, List.getD_eq_getElem?_getD, List.getElem?_set_ne (Ne.symm h)]

theorem shadowRay_setLight (m : MathLib K) (sc : Scene K) (point : Vec3 K) (i j : Nat)
    (L : Light K) (h : i ≠ j) :
    shadowRay m (sc.setLight j L) point (i : Int) = shadowRay m sc point (i : Int) ∧
    lightDistance m (sc.setLight j L) point (i : Int) = lightDistance m sc point (i : Int) := by
  simp only [shadowRay, lightDistance, Scene.setLight, readAt_set_ne _ _ _ _ h, and_self]

/-- The iteration of the light loop for an occluded light leaves `color` as it is. -/
theorem lightStep_of_occluded (m : MathLib K) (sc : Scene K) (ray : Ray K) (index : Int)
    (point normal color : Vec3 K) (i : Int) (hocc : Occluded m sc point i) :
    lightStep m sc ray index point normal color i = color := by
  have h : ¬ compare (shadowDistance m sc point i) INFINITY ≥ 0 := by
    rw [shadowDistance_test]; exact not_not.2 hocc
  simp only [lightStep, h, if_false]

/-- The iteration of the light loop for a light that is not occluded adds the
light's term. -/
theorem lightStep_of_not_occluded (m : MathLib K) (sc : Scene K) (ray : Ray K) (index : Int)
    (point normal color : Vec3 K) (i : Int) (hocc : ¬ Occluded m sc point i) :
    lightStep m sc ray index point normal color i
      = Vec3.add color (lightTerm m sc ray index point normal i) := by
  have h : compare (shadowDistance m sc point i) INFINITY ≥ 0 :=
    (shadowDistance_test m sc point i).2 hocc
  simp only [lightStep, h, if_true]

/-! ## C9: the shadow test -/

/-- C9.  In `traceLight`, for every light `i`: the test `compare(tn, INFINITY) >= 0`
after the shadow loop holds exactly when the light is not occluded, that is when
no sphere has a finite `intersect` distance `z` along the shadow ray with
`compare(z, distance) < 0`; the iteration for an occluded light leaves `color` as it
is, and the iteration for a light that is not occluded adds the light's term
`intensity(i, distance) * (diffuse + specular)`.  Replacing any other light `j ≠ i`
of the scene changes neither whether light `i` is occluded, nor its term, nor its
iteration.  The local colour of `traceLight` is the ambient seed followed by these
iterations for `i = 1, ..., lightCount - 1`. -/
theorem traceLight_shadow_test (m : MathLib K) (sc : Scene K) (ray : Ray K) (index : Int)
    (point normal : Vec3 K) :
    (∀ i : Int, compare (shadowDistance m sc point i) INFINITY ≥ 0 ↔ ¬ Occluded m sc point i) ∧
    (∀ (i : Int) (color : Vec3 K), Occluded m sc point i →
      lightStep m sc ray index point normal color i = color) ∧
    (∀ (i : Int) (color : Vec3 K), ¬ Occluded m sc point i →
      lightStep m sc ray index point normal color i
        = Vec3.add color (lightTerm m sc ray index point normal i)) ∧
    (∀ (i j : Nat) (L : Light K), i ≠ j →
      (Occluded m (sc.setLight j L) point (i : Int) ↔ Occluded m sc point (i : Int)) ∧
      lightTerm m (sc.setLight j L) ray index point normal (i : Int)
        = lightTerm m sc ray index point normal (i : Int) ∧
      ∀ color : Vec3 K, lightStep m (sc.setLight j L) ray index point normal color (i : Int)
        = lightStep m sc ray index point normal color (i : Int)) ∧
    (∀ t : Dbl K, localColor m sc ray index t
      = (List.range' 1 (sc.lights.length - 1)).foldl
          (fun (c : Vec3 K) (i : Nat) => lightStep m sc ray index (hitPoint ray t)
            (shadingNormal m sc ray index t) c (i : Int))
          (Vec3.mulv (Vec3.scale (pigment sc index) (texture sc index).amb)
            (readAt sc.lights 0).col)) := by
  refine ⟨fun i => shadowDistance_test m sc point i,
    fun i color hocc => lightStep_of_occluded m sc ray index point normal color i hocc,
    fun i color hocc => lightStep_of_not_occluded m sc ray index point normal color i hocc,
    ?_, fun t => rfl⟩
  · intro i j L hij
    obtain ⟨h1, h2⟩ := shadowRay_setLight m sc point i j L hij
    have hocc : Occluded m (sc.setLight j L) point (i : Int) ↔ Occluded m sc point (i : Int) := by
      unfold Occluded
      rw [h1, h2]
      rfl
    have hterm : lightTerm m (sc.setLight j L) ray index point normal (i : Int)
        = lightTerm m sc ray index point normal (i : Int) := by
      simp only [lightTerm, intensity, Scene.setLight, readAt_set_ne _ _ _ _ hij, pigment,
        texture]
    have hsd : shadowDistance m (sc.setLight j L) point (i : Int)
        = shadowDistance m sc point (i : Int) := by
      simp only [shadowDistance, Scene.setLight, readAt_set_ne _ _ _ _ hij]
    refine ⟨hocc, hterm, ?_⟩
    intro color
    simp only [lightStep, hterm, hsd]

/-! ## C10: the local colour -/

/-- C10.  The local colour accumulated by `traceLight` is `pigment * amb *
lights[0].col` plus, for every light `i` in `1 .. lightCount - 1` in turn that is
not occluded, `(lights[i].col / (aten.x + d * aten.y + d * d * aten.z)) *
(pigment * dif * max(n . l, 0) + spec * pow(max(v . reflect(l, n), 0), shin))`, with
`d = |lights[i].pos - point|`, `l = normalize(lights[i].pos - point)`,
`v = normalize(ray.orig - point)`, `n` the shading normal and `point` the hit
point.  It does not depend on `lights[0].pos` or `lights[0].aten`. -/
theorem localColor_formula (m : MathLib K) (sc : Scene K) (ray : Ray K) (index : Int)
    (t : Dbl K) :
    localColor m sc ray index t
      = (List.range' 1 (sc.lights.length - 1)).foldl
          (fun (c : Vec3 K) (i : Nat) =>
            let point := Vec3.add ray.orig (Vec3.scale ray.dir (t - EPSILON))
            let n := shadingNormal m sc ray index t
            let d := Vec3.length m (Vec3.sub (readAt sc.lights (i : Int)).pos point)
            let l := Vec3.normalize m (Vec3.sub (readAt sc.lights (i : Int)).pos point)
            let v := Vec3.normalize m (Vec3.sub ray.orig point)
            let aten := (readAt sc.lights (i : Int)).aten
            @ite (Vec3 K) (Occluded m sc point (i : Int)) (Classical.propDecidable _) c
              (Vec3.add c
                (Vec3.mulv
                  (Vec3.divide (readAt sc.lights (i : Int)).col
                    (aten.x + d * aten.y + d * d * aten.z))
                  (Vec3.adds
                    (Vec3.scale (Vec3.scale (pigment sc index) (texture sc index).dif)
                      (Dbl.max (Vec3.dot n l) (fin 0)))
                    ((texture sc index).spec *
                      m.pow (Dbl.max (Vec3.dot v (Vec3.reflect l n)) (fin 0))
                        (texture sc index).shin)))))
          (Vec3.mulv (Vec3.scale (pigment sc index) (texture sc index).amb)
            (readAt sc.lights 0).col) ∧
    ∀ (l0 : Light K) (rest : List (Light K)) (pos aten : Vec3 K),
      sc.lights = l0 :: rest →
      localColor m { sc with lights := ⟨pos, l0.col, aten⟩ :: rest } ray index t
        = localColor m sc ray index t := by
  refine ⟨?_, ?_⟩
  · unfold localColor
    apply List.foldl_ext
    intro c i _
    by_cases hocc : Occluded m sc (hitPoint ray t) (i : Int)
    · rw [lightStep_of_occluded _ _ _ _ _ _ _ _ hocc]
      simp only [hitPoint] at hocc
      simp only [hocc, if_true]
    · rw [lightStep_of_not_occluded _ _ _ _ _ _ _ _ hocc]
      simp only [hitPoint] at hocc
      simp only [hocc, if_false]
      rfl
  intro l0 rest pos aten hl
  have hread : ∀ i : Nat, i ∈ List.range' 1 (sc.lights.length - 1) →
      readAt ((⟨pos, l0.col, aten⟩ : Light K) :: rest) (i : Int) = readAt sc.lights (i : Int) := by
    intro i hi
    have hi1 : 1 ≤ i := (List.mem_range'_1.1 hi).1
    obtain ⟨k, rfl⟩ : ∃ k, i = k + 1 := ⟨i - 1, by omega⟩
    rw [hl]
    simp [readAt, List.getD_eq_getElem?_getD]
  have h0 : (readAt ((⟨pos, l0.col, aten⟩ : Light K) :: rest) 0).col = (readAt sc.lights 0).col := by
    rw [hl]; simp [readAt]
  have hlen : ((⟨pos, l0.col, aten⟩ : Light K) :: rest).length = sc.lights.length := by
    rw [hl]; simp
  have hn : shadingNormal m { sc with lights := ⟨pos, l0.col, aten⟩ :: rest } ray index t
      = shadingNormal m sc ray index t := rfl
  simp only [localColor, pigment, texture, h0, hlen, hn]
  apply List.foldl_ext
  intro c i hi
  simp only [lightStep, lightTerm, shadowDistance, intensity, hread i hi, pigment, texture]

/-! ## The result of the nearest-hit loop -/

/-- The loop of `traceRay`, from the initial state: it ends with the sentinel when
every sphere is missed, and otherwise on a sphere `l[k]` with a finite distance
above `EPSILON`, smaller than every distance before it and at most `EPSILON` above
every distance. -/
theorem traceRayLoop_result (m : MathLib K) (ray : Ray K) (l : List (Sphere K)) :
    ((∀ s ∈ l, intersect m ray s = pinf) ∧
      traceRayLoop m ray l 0 (-1) INFINITY = (-1, pinf)) ∨
    (∃ (k : Nat) (s : Sphere K) (t : K), l[k]? = some s ∧ intersect m ray s = fin t ∧
      eps < t ∧ traceRayLoop m ray l 0 (-1) INFINITY = ((k : Int), fin t) ∧
      (∀ (j : Nat) (s' : Sphere K) (z : K), j < k → l[j]? = some s' →
        intersect m ray s' = fin z → t < z) ∧
      (∀ s' ∈ l, ∀ z, intersect m ray s' = fin z → t ≤ z + eps)) := by
  rcases traceRayLoop_spec m ray l 0 (-1) pinf (Or.inl rfl) with
    ⟨hr, hall⟩ | ⟨k, s, hk, hr, hc, hbef, hall⟩
  · left
    refine ⟨?_, hr⟩
    intro s hs
    rcases intersect_range m ray s with h | ⟨q, -, h⟩
    · exact h
    · exact absurd (h ▸ compare_fin_pinf q) (hall s hs)
  · right
    rcases intersect_range m ray s with hp | ⟨t, ht0, ht⟩
    · exact absurd (hp ▸ hc) (compare_pinf_not_lt _)
    · refine ⟨k, s, t, hk, ht, ht0, ?_, ?_, ?_⟩
      · rw [INFINITY, hr, ht, zero_add]
      · intro j s' z hj hs' hz
        have := hbef j s' hj hs'
        rw [ht, hz] at this
        simpa using this
      · intro s' hs' z hz
        have := hall s' hs'
        rw [ht, hz, compare_fin_fin_lt] at this
        exact not_lt.1 this

theorem traceRay_of_loop_fin (m : MathLib K) (sc : Scene K) (ray : Ray K) (step : Int)
    (i : Int) (t : K) (h : traceRayLoop m ray sc.spheres 0 (-1) INFINITY = (i, fin t)) :
    traceRay m sc ray step = traceLight m sc ray i (fin t) step := by
  rw [traceRay]
  simp only [h]
  have : ¬ compare (fin t) (INFINITY : Dbl K) ≥ 0 := not_le.2 (compare_fin_pinf t)
  simp [this]

/-! ## C16: hits lie beyond `EPSILON` -/

/-- C16.  For every ray and every sphere, `intersect` returns the sentinel or a
finite `t` with `t > EPSILON`; hence a reported hit has `t > 0`, the parameter
`t - EPSILON` of the hit point of `traceLight` is strictly positive, and whenever
`traceRay` calls `traceLight` the distance it passes is such a `t`. -/
theorem intersect_above_eps (m : MathLib K) (ray : Ray K) (sphere : Sphere K) :
    (intersect m ray sphere = pinf ∨ ∃ t, eps < t ∧ intersect m ray sphere = fin t) ∧
    (∀ t, intersect m ray sphere = fin t →
      0 < t ∧ 0 < t - eps ∧ (fin t - EPSILON : Dbl K) = fin (t - eps) ∧
      hitPoint ray (fin t) = Vec3.add ray.orig (Vec3.scale ray.dir (fin (t - eps)))) ∧
    (∀ (sc : Scene K) (step : Int),
      ((traceRayLoop m ray sc.spheres 0 (-1) INFINITY).2 = pinf ∧
        traceRay m sc ray step = background) ∨
      (∃ t, (traceRayLoop m ray sc.spheres 0 (-1) INFINITY).2 = fin t ∧ eps < t ∧
        0 < t - eps ∧
        traceRay m sc ray step
          = traceLight m sc ray (traceRayLoop m ray sc.spheres 0 (-1) INFINITY).1 (fin t)
              step)) := by
  have he : (0 : K) < eps := eps_pos
  refine ⟨intersect_range m ray sphere, ?_, ?_⟩
  · intro t ht
    have ht0 : eps < t := by
      rcases intersect_range m ray sphere with h | ⟨q, hq, h⟩
      · rw [h] at ht; exact absurd ht (by simp)
      · rw [h] at ht
        have : q = t := by simpa using ht
        exact this ▸ hq
    refine ⟨by linarith, by linarith, by simp [EPSILON], by simp [hitPoint, EPSILON]⟩
  · intro sc step
    rcases traceRayLoop_result m ray sc.spheres with ⟨hall, hr⟩ | ⟨k, s, t, -, -, ht0, hr, -, -⟩
    · left
      exact ⟨by rw [hr], traceRay_of_all_miss m sc ray step hall⟩
    · right
      refine ⟨t, by rw [hr], ht0, by linarith, ?_⟩
      rw [hr]
      exact traceRay_of_loop_fin m sc ray step _ t hr

/-! ## C17: the background branch and the shaded sphere -/

/-- C17, amended.  For every scene and ray: when every sphere's `intersect`
distance is the sentinel, `traceRay` returns the background colour; the test
`compare(t, INFINITY) >= 0` that makes `traceRay` return the background colour
without shading holds if and only if every sphere's distance is the sentinel;
otherwise the index `i` and distance `t` that `traceRay` passes to `traceLight`
satisfy `t = intersect(ray, spheres[i])` and `t ≤ z + EPSILON` for every finite
distance `z` of a sphere, the smallest included. -/
theorem traceRay_background_branch (m : MathLib K) (sc : Scene K) (ray : Ray K)
    (step : Int) :
    ((∀ s ∈ sc.spheres, intersect m ray s = pinf) →
      traceRay m sc ray step = background) ∧
    (compare (traceRayLoop m ray sc.spheres 0 (-1) INFINITY).2 INFINITY ≥ 0 ↔
      ∀ s ∈ sc.spheres, intersect m ray s = pinf) ∧
    (¬ (∀ s ∈ sc.spheres, intersect m ray s = pinf) →
      ∃ (i : Nat) (s : Sphere K) (t : K), sc.spheres[i]? = some s ∧
        intersect m ray s = fin t ∧
        traceRayLoop m ray sc.spheres 0 (-1) INFINITY = ((i : Int), fin t) ∧
        traceRay m sc ray step = traceLight m sc ray (i : Int) (fin t) step ∧
        ∀ s' ∈ sc.spheres, ∀ z, intersect m ray s' = fin z → t ≤ z + eps) := by
  refine ⟨traceRay_of_all_miss m sc ray step, ?_, ?_⟩
  · rcases traceRayLoop_result m ray sc.spheres with ⟨hall, hr⟩ | ⟨k, s, t, hk, ht, -, hr, -, -⟩
    · rw [hr]
      constructor
      · intro _; exact hall
      · intro _; rw [compare_INFINITY_ge]; exact Or.inl rfl
    · rw [hr]
      constructor
      · intro h
        exact absurd h (not_le.2 (compare_fin_pinf t))
      · intro hall
        have hs : s ∈ sc.spheres := List.getElem?_mem hk
        rw [hall s hs] at ht
        exact absurd ht (by simp)
  · intro hnot
    rcases traceRayLoop_result m ray sc.spheres with ⟨hall, -⟩ | ⟨k, s, t, hk, ht, -, hr, -, hle⟩
    · exact absurd hall hnot
    · exact ⟨k, s, t, hk, ht, hr, traceRay_of_loop_fin m sc ray step _ t hr, hle⟩

/-- C17 as stated fails.  In the scene `sceneGrey` the ray `rayX` hits the sphere at
`t = 2`, a finite distance, and `traceRay` still returns `(0.5, 0.5, 0.5)`, the
background colour: it is the local colour of the matte grey sphere. -/
theorem traceRay_grey_sphere :
    sceneGrey.spheres = [sphereAhead] ∧
    intersect mathQ rayX sphereAhead = fin 2 ∧
    (∀ step, traceRay mathQ sceneGrey rayX step = vecQ (1 / 2) (1 / 2) (1 / 2)) ∧
    (background : Vec3 ℚ) = vecQ (1 / 2) (1 / 2) (1 / 2) := by
  refine ⟨rfl, intersect_rayX_sphereAhead, ?_, rfl⟩
  intro step
  have hloop : traceRayLoop mathQ rayX sceneGrey.spheres 0 (-1) INFINITY = (0, fin 2) := by
    simp only [sceneGrey, traceRayLoop, intersect_rayX_sphereAhead, INFINITY, compare_fin_pinf,
      if_true]
  rw [traceRay_of_loop_fin mathQ sceneGrey rayX step 0 2 hloop, traceLight]
  have ht : texture sceneGrey 0 = ⟨fin 1, fin 1, fin 1, fin 1, fin 0⟩ := by
    simp [texture, readAt, sceneGrey, sphereAhead]
  have h : compare (fin 0) (texture sceneGrey 0).refl ≥ 0 := by
    rw [compare_zero_ge_iff]
    norm_num [ht, EPSILON, eps]
  simp only [h, if_true]
  norm_num [localColor, pigment, texture, readAt, sceneGrey, sphereAhead, Vec3.mulv, Vec3.scale,
    vecQ]

/-! ## Reflection and the shading normal -/

theorem sqrtQ_nine : sqrtQ (fin 9) = fin 3 := by
  have := sqrtQ_mul_self 3 (by norm_num)
  norm_num at this
  exact this

theorem sqrtQ_one : sqrtQ (fin 1) = fin 1 := by
  have := sqrtQ_mul_self 1 (by norm_num)
  norm_num at this
  exact this

theorem normalize_up_example : Vec3.normalize mathQ (vecQ 0 3 0) = vecQ 0 1 0 := by
  norm_num [Vec3.normalize, Vec3.length, Vec3.divide, mathQ, vecQ, sqrtQ_nine, Dbl.eq,
    fin_div_fin]

theorem normalize_fwd_example : Vec3.normalize mathQ (vecQ 0 0 2) = vecQ 0 0 1 := by
  norm_num [Vec3.normalize, Vec3.length, Vec3.divide, mathQ, vecQ, sqrtQ_four, Dbl.eq,
    fin_div_fin]

/-! ## The pixel rays of `render` -/

/-- On an index that is not negative, the truncating `%` and `/` of C are the
remainder and quotient of Lean. -/
theorem tmod_tdiv_of_nonneg (i w : Int) (hi : 0 ≤ i) :
    Int.tmod i w = i % w ∧ Int.tdiv i w = i / w := by
  rcases le_total 0 w with hw | hw
  · exact ⟨Int.tmod_eq_emod hi hw, Int.tdiv_eq_ediv hi hw⟩
  · obtain ⟨v, rfl⟩ : ∃ v, w = -v := ⟨-w, by simp⟩
    have hv : 0 ≤ v := by omega
    constructor
    · rw [Int.tmod_neg, Int.emod_neg, Int.tmod_eq_emod hi hv]
    · rw [Int.tdiv_neg, Int.ediv_neg, Int.tdiv_eq_ediv hi hv]

theorem normalize_unit_example (x y z : ℚ) (h : x * x + y * y + z * z = 1) :
    Vec3.normalize mathQ (vecQ x y z) = vecQ x y z := by
  simp [Vec3.normalize, Vec3.length, Vec3.divide, mathQ, vecQ, h, sqrtQ_one, Dbl.eq,
    fin_div_fin]

theorem camQ_eq :
    camQ = ⟨1, 1, 0, fin 1, fin 0, fin 0, fin 0, vecQ 0 0 0, vecQ 0 0 1, vecQ 0 1 0,
      vecQ 0 0 1, vecQ 1 0 0⟩ := by
  have hsub : Vec3.sub (vecQ 0 0 2) (vecQ 0 0 0) = vecQ 0 0 2 := by
    norm_num [Vec3.sub, vecQ]
  have hc1 : Vec3.cross (vecQ 0 1 0) (vecQ 0 0 1) = vecQ 1 0 0 := by
    norm_num [Vec3.cross, vecQ]
  have hc2 : Vec3.cross (vecQ 0 0 1) (vecQ 1 0 0) = vecQ 0 1 0 := by
    norm_num [Vec3.cross, vecQ]
  have hadd : Vec3.add (vecQ 0 0 0) (vecQ 0 0 1) = vecQ 0 0 1 := by
    norm_num [Vec3.add, vecQ]
  have htan : mathQ.tan (fin 0 / fin 2) = fin 0 := by
    norm_num [mathQ, tanQ, fin_div_fin]
  have hasp : (Dbl.ofInt 1 / Dbl.ofInt 1 : Dbl ℚ) = fin 1 := by
    norm_num [Dbl.ofInt, fin_div_fin]
  simp only [camQ, initCamera, hsub, normalize_up_example, normalize_fwd_example, hc1,
    normalize_unit_example 1 0 0 (by norm_num), hc2,
    normalize_unit_example 0 1 0 (by norm_num), hadd, htan, hasp]
  norm_num

theorem pixelRay_camQ : pixelRay mathQ camQ 0 = ⟨vecQ 0 0 1, vecQ 0 0 1⟩ := by
  rw [camQ_eq]
  have hx : (fin 0 * Dbl.ofInt (Int.tmod 0 1) / Dbl.ofInt 1 - fin 0 / fin 2 : Dbl ℚ) = fin 0 := by
    norm_num [Dbl.ofInt, fin_div_fin]
  have hy : (fin 0 * Dbl.ofInt (Int.tdiv 0 1) / Dbl.ofInt 1 - fin 0 / fin 2 : Dbl ℚ) = fin 0 := by
    norm_num [Dbl.ofInt, fin_div_fin]
  have ho : Vec3.sub (Vec3.sub (vecQ 0 0 1) (Vec3.scale (vecQ 1 0 0) (fin 0)))
      (Vec3.scale (vecQ 0 1 0) (fin 0)) = vecQ 0 0 1 := by
    norm_num [Vec3.sub, Vec3.scale, vecQ]
  have hs : Vec3.sub (vecQ 0 0 1) (vecQ 0 0 0) = vecQ 0 0 1 := by
    norm_num [Vec3.sub, vecQ]
  simp only [pixelRay, hx, hy, ho, hs, normalize_unit_example 0 0 1 (by norm_num)]

/-! ## A concrete view -/

theorem sqrtQ_quarter : sqrtQ (fin (1 / 4)) = fin (1 / 2) := by
  have := sqrtQ_mul_self (1 / 2) (by norm_num)
  norm_num at this
  norm_num
  exact this

theorem intersect_near_sphereView :
    intersect mathQ ⟨vecQ 0 0 1, vecQ 0 0 1⟩ sphereView = fin (1 / 4) := by
  rw [intersect_eq_intersectSolve]
  have e := intersectSolve_pos mathQ 1 (-1) (3 / 16) (1 / 2)
    one_pos (by norm_num [eps]) (by norm_num [mathQ]; exact sqrtQ_quarter)
  norm_num [eps] at e
  norm_num [sphereView, vecQ, Vec3.sub, Vec3.dot]
  rw [← e]

theorem intersect_far_sphereView :
    intersect mathQ ⟨vecQ 0 0 2, vecQ 0 0 1⟩ sphereView = pinf := by
  rw [intersect_eq_intersectSolve]
  have e := intersectSolve_pos mathQ 1 1 (3 / 16) (1 / 2)
    one_pos (by norm_num [eps]) (by norm_num [mathQ]; exact sqrtQ_quarter)
  norm_num [eps] at e
  norm_num [sphereView, vecQ, Vec3.sub, Vec3.dot]
  rw [← e]

theorem traceRay_near_sceneView (step : Int) :
    traceRay mathQ sceneView ⟨vecQ 0 0 1, vecQ 0 0 1⟩ step = vecQ 1 1 1 := by
  have hloop : traceRayLoop mathQ ⟨vecQ 0 0 1, vecQ 0 0 1⟩ sceneView.spheres 0 (-1) INFINITY
      = (0, fin (1 / 4)) := by
    simp only [sceneView, traceRayLoop, intersect_near_sphereView, INFINITY, compare_fin_pinf,
      if_true]
  rw [traceRay_of_loop_fin mathQ sceneView _ step 0 (1 / 4) hloop, traceLight]
  have ht : texture sceneView 0 = ⟨fin 1, fin 1, fin 1, fin 1, fin 0⟩ := by
    simp [texture, readAt, sceneView, sphereView]
  have h : compare (fin 0) (texture sceneView 0).refl ≥ 0 := by
    rw [compare_zero_ge_iff]
    norm_num [ht, EPSILON, eps]
  simp only [h, if_true]
  norm_num [localColor, pigment, texture, readAt, sceneView, sphereView, Vec3.mulv, Vec3.scale,
    vecQ]

theorem traceRay_far_sceneView (step : Int) :
    traceRay mathQ sceneView ⟨vecQ 0 0 2, vecQ 0 0 1⟩ step = vecQ (1 / 2) (1 / 2) (1 / 2) := by
  have h : traceRay mathQ sceneView ⟨vecQ 0 0 2, vecQ 0 0 1⟩ step = background := by
    apply traceRay_of_all_miss
    intro s hs
    have hs' : s = sphereView := by simpa [sceneView] using hs
    subst hs'
    exact intersect_far_sphereView
  rw [h]
  rfl

/-! ## C13: the pixels of `render` -/

/-- C13, amended.  For the globals `cam` that `initialize` derives and every pixel
index `0 ≤ i < width * height`, with `px = i mod width` and `py = i div width`:
`render` stores in `pixels[i]` the value `traceRay(Ray{P, normalize(P - eye)},
depth)`, where `P = at' - left * x - up * y`, `at' = eye + fwd` is the look-at point
as `initialize` re-derives it from `fwd = normalize(at - eye)`,
`x = w * px / width - w / 2` and `y = h * py / height - h / 2`. -/
theorem render_pixel (m : MathLib K) (sc : Scene K) (cam : Camera K)
    (width height depth : Int) (eye lookAt up : Vec3 K) (fovy : Dbl K) (i : Int)
    (hcam : cam = initCamera m width height depth eye lookAt up fovy)
    (hi : 0 ≤ i ∧ i < width * height) :
    cam.fwd = Vec3.normalize m (Vec3.sub lookAt eye) ∧
    cam.lookAt = Vec3.add eye cam.fwd ∧
    (render m sc cam)[i.toNat]? =
      some (traceRay m sc
        ⟨Vec3.sub (Vec3.sub (Vec3.add eye cam.fwd)
            (Vec3.scale cam.left
              (cam.w * Dbl.ofInt (i % width) / Dbl.ofInt width - cam.w / fin 2)))
            (Vec3.scale cam.up
              (cam.h * Dbl.ofInt (i / width) / Dbl.ofInt height - cam.h / fin 2)),
          Vec3.normalize m
            (Vec3.sub
              (Vec3.sub (Vec3.sub (Vec3.add eye cam.fwd)
                (Vec3.scale cam.left
                  (cam.w * Dbl.ofInt (i % width) / Dbl.ofInt width - cam.w / fin 2)))
                (Vec3.scale cam.up
                  (cam.h * Dbl.ofInt (i / width) / Dbl.ofInt height - cam.h / fin 2)))
              eye)⟩
        depth) := by
  subst hcam
  refine ⟨rfl, rfl, ?_⟩
  obtain ⟨hi0, hi1⟩ := hi
  obtain ⟨hmod, hdiv⟩ := tmod_tdiv_of_nonneg i width hi0
  have hlt : i.toNat < ((initCamera m width height depth eye lookAt up fovy).width
      * (initCamera m width height depth eye lookAt up fovy).height).toNat := by
    have : (initCamera m width height depth eye lookAt up fovy).width
        * (initCamera m width height depth eye lookAt up fovy).height = width * height := rfl
    rw [this]
    omega
  have hcast : ((i.toNat : Nat) : Int) = i := Int.toNat_of_nonneg hi0
  simp only [render, List.getElem?_map, List.getElem?_range hlt, Option.map_some', hcast]
  simp only [pixelRay, initCamera, hmod, hdiv]

/-- C13, an instance: the camera `camQ`, the scene `sceneView` and the pixel
`i = 0`. -/
theorem render_pixel_witness :
    (camQ = initCamera mathQ 1 1 0 (vecQ 0 0 0) (vecQ 0 0 2) (vecQ 0 3 0) (fin 0) ∧
      ((0 : Int) ≤ 0 ∧ (0 : Int) < 1 * 1)) ∧
    (camQ.fwd = Vec3.normalize mathQ (Vec3.sub (vecQ 0 0 2) (vecQ 0 0 0)) ∧
    camQ.lookAt = Vec3.add (vecQ 0 0 0) camQ.fwd ∧
    (render mathQ sceneView camQ)[(0 : Int).toNat]? =
      some (traceRay mathQ sceneView
        ⟨Vec3.sub (Vec3.sub (Vec3.add (vecQ 0 0 0) camQ.fwd)
            (Vec3.scale camQ.left
              (camQ.w * Dbl.ofInt (0 % 1) / Dbl.ofInt 1 - camQ.w / fin 2)))
            (Vec3.scale camQ.up
              (camQ.h * Dbl.ofInt (0 / 1) / Dbl.ofInt 1 - camQ.h / fin 2)),
          Vec3.normalize mathQ
            (Vec3.sub
              (Vec3.sub (Vec3.sub (Vec3.add (vecQ 0 0 0) camQ.fwd)
                (Vec3.scale camQ.left
                  (camQ.w * Dbl.ofInt (0 % 1) / Dbl.ofInt 1 - camQ.w / fin 2)))
                (Vec3.scale camQ.up
                  (camQ.h * Dbl.ofInt (0 / 1) / Dbl.ofInt 1 - camQ.h / fin 2)))
              (vecQ 0 0 0))⟩
        0)) := by
  have h1 : camQ = initCamera mathQ 1 1 0 (vecQ 0 0 0) (vecQ 0 0 2) (vecQ 0 3 0) (fin 0) := rfl
  have h2 : (0 : Int) ≤ 0 ∧ (0 : Int) < 1 * 1 := by norm_num
  exact ⟨⟨h1, h2⟩,
    render_pixel mathQ sceneView camQ 1 1 0 (vecQ 0 0 0) (vecQ 0 0 2) (vecQ 0 3 0) (fin 0) 0
      h1 h2⟩

/-- C13 as stated fails.  The camera `camQ` is derived from the look-at point
`(0, 0, 2)`, at the distance `2` from the eye, and `initialize` replaces it by
`eye + fwd = (0, 0, 1)`.  For its one pixel `render` traces the ray from
`(0, 0, 1)`, which hits the sphere of `sceneView`, and stores `(1, 1, 1)`; the ray
of the claim, from `P = (0, 0, 2)` with the look-at point as given, starts beyond
the sphere and traces to the background `(0.5, 0.5, 0.5)`. -/
theorem render_uses_rederived_lookAt :
    camQ = initCamera mathQ 1 1 0 (vecQ 0 0 0) (vecQ 0 0 2) (vecQ 0 3 0) (fin 0) ∧
    render mathQ sceneView camQ = [vecQ 1 1 1] ∧
    traceRay mathQ sceneView
      ⟨Vec3.sub (Vec3.sub (vecQ 0 0 2)
          (Vec3.scale camQ.left
            (camQ.w * Dbl.ofInt (0 % 1) / Dbl.ofInt 1 - camQ.w / fin 2)))
          (Vec3.scale camQ.up
            (camQ.h * Dbl.ofInt (0 / 1) / Dbl.ofInt 1 - camQ.h / fin 2)),
        Vec3.normalize mathQ
          (Vec3.sub
            (Vec3.sub (Vec3.sub (vecQ 0 0 2)
              (Vec3.scale camQ.left
                (camQ.w * Dbl.ofInt (0 % 1) / Dbl.ofInt 1 - camQ.w / fin 2)))
              (Vec3.scale camQ.up
                (camQ.h * Dbl.ofInt (0 / 1) / Dbl.ofInt 1 - camQ.h / fin 2)))
            (vecQ 0 0 0))⟩
      0 = vecQ (1 / 2) (1 / 2) (1 / 2) ∧
    vecQ 1 1 1 ≠ vecQ (1 / 2) (1 / 2) (1 / 2) := by
  refine ⟨rfl, ?_, ?_, by norm_num [vecQ]⟩
  · have hr : render mathQ sceneView camQ
        = [traceRay mathQ sceneView (pixelRay mathQ camQ 0) camQ.depth] := by
      have hw : (camQ.width * camQ.height).toNat = 1 := by
        rw [camQ_eq]; norm_num
      simp only [render, hw]
      rfl
    rw [hr, pixelRay_camQ, traceRay_near_sceneView]
  · have hx : (fin 0 * Dbl.ofInt (0 % 1) / Dbl.ofInt 1 - fin 0 / fin 2 : Dbl ℚ) = fin 0 := by
      norm_num [Dbl.ofInt, fin_div_fin]
    have hy : (fin 0 * Dbl.ofInt (0 / 1) / Dbl.ofInt 1 - fin 0 / fin 2 : Dbl ℚ) = fin 0 := by
      norm_num [Dbl.ofInt, fin_div_fin]
    have ho : Vec3.sub (Vec3.sub (vecQ 0 0 2) (Vec3.scale (vecQ 1 0 0) (fin 0)))
        (Vec3.scale (vecQ 0 1 0) (fin 0)) = vecQ 0 0 2 := by
      norm_num [Vec3.sub, Vec3.scale, vecQ]
    have hs : Vec3.sub (vecQ 0 0 2) (vecQ 0 0 0) = vecQ 0 0 2 := by
      norm_num [Vec3.sub, vecQ]
    rw [camQ_eq]
    simp only [hx, hy, ho, hs, normalize_fwd_example]
    exact traceRay_far_sceneView 0

/-! ## The bytes of `finalize` -/

/-- The function `clamp` with the bounds `0` and `255` on a finite value. -/
theorem clamp_fin (x : K) :
    clamp (fin x) (fin 0) (fin 255) = fin (max 0 (min x 255)) := by
  unfold clamp
  simp only [lt_fin_fin, decide_eq_true_eq]
  by_cases h1 : x < 0
  · simp only [h1, if_true]
    rw [max_eq_left]
    exact le_trans (min_le_left _ _) h1.le
  · simp only [h1, if_false]
    by_cases h2 : (255 : K) < x
    · simp only [h2, if_true]
      rw [min_eq_right h2.le, max_eq_right (by norm_num)]
    · simp only [h2, if_false]
      rw [min_eq_left (not_lt.1 h2), max_eq_right (not_lt.1 h1)]

theorem floor_byte_max [FloorRing K] : ⌊(255 : K)⌋ = 255 := by
  have h : ⌊((255 : Int) : K)⌋ = 255 := Int.floor_intCast 255
  rw [← h]
  norm_num

/-- The conversion of a clamped finite value: the clamped value truncated. -/
theorem toUChar_clamp_fin [FloorRing K] (p : K) :
    toUChar (clamp (fin p) (fin 0) (fin 255)) = ⌊max 0 (min p 255)⌋.toNat ∧
    0 ≤ ⌊max 0 (min p 255)⌋ ∧ ⌊max 0 (min p 255)⌋ ≤ 255 := by
  have h0 : (0 : K) ≤ max 0 (min p 255) := le_max_left _ _
  have h255 : max 0 (min p 255) ≤ (255 : K) :=
    max_le (by norm_num) (min_le_right _ _)
  have hf0 : 0 ≤ ⌊max 0 (min p 255)⌋ := Int.floor_nonneg.2 h0
  have hf255 : ⌊max 0 (min p 255)⌋ ≤ 255 := by
    have : ⌊max 0 (min p 255)⌋ ≤ ⌊(255 : K)⌋ := Int.floor_mono h255
    have e : ⌊(255 : K)⌋ = 255 := floor_byte_max
    rwa [e] at this
  refine ⟨?_, hf0, hf255⟩
  simp only [clamp_fin, toUChar, h0, if_true, hf0, hf255, and_self]

/-- The byte of a finite channel value: the clamped value truncated. -/
theorem channelByte_fin [FloorRing K] (c : K) :
    channelByte (fin c) = ⌊max 0 (min (c * 255) 255)⌋.toNat ∧
    0 ≤ ⌊max 0 (min (c * 255) 255)⌋ ∧ ⌊max 0 (min (c * 255) 255)⌋ ≤ 255 := by
  have h0 : (0 : K) ≤ max 0 (min (c * 255) 255) := le_max_left _ _
  have h255 : max 0 (min (c * 255) 255) ≤ (255 : K) :=
    max_le (by norm_num) (min_le_right _ _)
  have hf0 : 0 ≤ ⌊max 0 (min (c * 255) 255)⌋ := Int.floor_nonneg.2 h0
  have hf255 : ⌊max 0 (min (c * 255) 255)⌋ ≤ 255 := by
    have : ⌊max 0 (min (c * 255) 255)⌋ ≤ ⌊(255 : K)⌋ := Int.floor_mono h255
    have e : ⌊(255 : K)⌋ = 255 := floor_byte_max
    rwa [e] at this
  refine ⟨?_, hf0, hf255⟩
  simp only [channelByte, fin_mul_fin, clamp_fin, toUChar, h0, if_true, hf0, hf255, and_self]

/-! ## C14: the byte of a channel -/

/-- C14, amended.  The byte that `finalize` writes for a channel value `c` is the
conversion of `clamp(p, 0.0, 255.0)` to `unsigned char`, where `p` is the product
`c * 255.0` as the code computes it; and for every finite value `p` of that product
the byte is `clamp(p, 0, 255)` truncated, that is rounded down to an integer, not
rounded to the nearest one.  `finalize` writes the three bytes of every pixel in
turn. -/
theorem finalize_byte_truncates [FloorRing K] :
    (∀ c : Dbl K, channelByte c = toUChar (clamp (c * fin 255) (fin 0) (fin 255))) ∧
    (∀ p : K, (toUChar (clamp (fin p) (fin 0) (fin 255)) : Int) = ⌊max 0 (min p 255)⌋) ∧
    ∀ (p : Vec3 K) (rest : List (Vec3 K)),
      finalize (p :: rest)
        = channelByte p.x :: channelByte p.y :: channelByte p.z :: finalize rest := by
  refine ⟨fun c => rfl, ?_, ?_⟩
  · intro p
    obtain ⟨h, h0, -⟩ := toUChar_clamp_fin p
    rw [h, Int.toNat_of_nonneg h0]
  · intro p rest
    simp [finalize]

/-- C14 as stated fails.  For the channel value `c = 3/256`, `c * 255 = 765/256`
lies between `2` and `3` and is nearer to `3`: `finalize` writes the byte `2`,
where `round(clamp(c * 255, 0, 255))` is `3`. -/
theorem channelByte_not_rounded :
    channelByte (fin (3 / 256 : ℚ)) = 2 ∧ roundedByte (3 / 256 : ℚ) = 3 ∧
    (3 / 256 : ℚ) * 255 = 765 / 256 ∧ (2 : ℚ) < 765 / 256 ∧ (765 / 256 : ℚ) < 3 ∧
    |(765 / 256 : ℚ) - 3| < |(765 / 256 : ℚ) - 2| := by
  have hm : max (0 : ℚ) (min (3 / 256 * 255) 255) = 765 / 256 := by
    norm_num
  refine ⟨?_, ?_, by norm_num, by norm_num, by norm_num, ?_⟩
  · have hf : ⌊(765 / 256 : ℚ)⌋ = 2 := by
      rw [Int.floor_eq_iff]; norm_num
    rw [(channelByte_fin (3 / 256 : ℚ)).1, hm, hf]
    rfl
  · unfold roundedByte
    rw [hm, round_eq, Int.floor_eq_iff]
    norm_num
  · rw [abs_of_neg (by norm_num), abs_of_pos (by norm_num)]
    norm_num

/-! ## C15: clamping -/

/-- C15.  For every finite channel value `c`, the byte that `finalize` produces is
`0` when `c ≤ 0`, is `255` when `c ≥ 1`, always lies in `0 .. 255`, and does not
decrease when `c` grows; the byte of `-inf` is `0` and the byte of `+inf` is
`255`. -/
theorem channelByte_clamps [FloorRing K] :
    (∀ c : K, c ≤ 0 → channelByte (fin c) = 0) ∧
    (∀ c : K, 1 ≤ c → channelByte (fin c) = 255) ∧
    (∀ c : K, channelByte (fin c) ≤ 255) ∧
    (∀ c c' : K, c ≤ c' → channelByte (fin c) ≤ channelByte (fin c')) ∧
    channelByte (ninf : Dbl K) = 0 ∧ channelByte (pinf : Dbl K) = 255 := by
  refine ⟨?_, ?_, ?_, ?_, ?_, ?_⟩
  · intro c hc
    have hm : max 0 (min (c * 255) 255) = (0 : K) := by
      apply max_eq_left
      exact le_trans (min_le_left _ _) (by nlinarith)
    rw [(channelByte_fin c).1, hm]
    simp
  · intro c hc
    have hm : max 0 (min (c * 255) 255) = (255 : K) := by
      rw [min_eq_right (by nlinarith), max_eq_right (by norm_num)]
    have e : ⌊(255 : K)⌋ = 255 := floor_byte_max
    rw [(channelByte_fin c).1, hm, e]
    rfl
  · intro c
    obtain ⟨h, h0, h255⟩ := channelByte_fin c
    rw [h]
    omega
  · intro c c' hcc
    obtain ⟨h, h0, -⟩ := channelByte_fin c
    obtain ⟨h', h0', -⟩ := channelByte_fin c'
    rw [h, h']
    apply Int.toNat_le_toNat
    apply Int.floor_mono
    exact max_le_max le_rfl (min_le_min (by nlinarith) le_rfl)
  · have h255 : ¬ ((255 : K) = 0) := by norm_num
    simp [channelByte, mul_def, Dbl.mul, infTimes, h255, clamp, Dbl.lt, toUChar]
  · have h255 : ¬ ((255 : K) = 0) := by norm_num
    have h3 : (0 : K) < 255 := by norm_num
    have e : ⌊(255 : K)⌋ = 255 := floor_byte_max
    simp [channelByte, mul_def, Dbl.mul, infTimes, h255, h3, clamp, Dbl.lt, toUChar, e]

end Tracer
